import Mathlib

/-!
# TFS — a shallow embedding of the tecnicofs-style in-memory file system

This file embeds the file-system facade of `src/fs/operations.c` in Lean 4.
The state layer (`state.c`: inode pool, data-block pool, open-file table and
the root-directory entry array) is not part of the sources; those operations
are modelled from the specification and are marked `Modelled from the spec:`
in their doc comments.  Everything in `operations.c` is translated directly
from the C code.

Conventions of the embedding:
* C functions returning `-1` on failure are embedded with `Option`:
  `none` stands for `-1`, `some x` for a non-negative result `x`.
* `size_t` arithmetic is embedded on `Nat` with an explicit `% W`
  (`W = 2 ^ 64`) at the operations where wrap-around can change behaviour
  (the byte-count computations of `tfs_read` and `tfs_write`, and the
  offset updates).
* A data block is a `List Nat` of bytes.  Blocks are modelled as zeroed on
  allocation (the block region is created zero-initialised; stale bytes of a
  freed-and-reallocated block are observable only by reading past a file's
  size, and no theorem below asserts the *contents* produced that way, only
  the byte counts).
* `ALWAYS_ASSERT` aborts the process in C; the corresponding branches
  (e.g. a dangling data block) are embedded as failures and are excluded by
  hypotheses in the theorems, except where a claim is precisely about an
  input that reaches such a state.
-/

namespace TFS

/-- Width of `size_t` arithmetic: the C code computes byte counts in
`size_t`, i.e. modulo `2 ^ 64` on the usual 64-bit targets. -/
def W : Nat := 2 ^ 64

/-- Inode kinds, from `inode_type` (`T_FILE`, `T_DIRECTORY`, `T_SYM_LINK`). -/
inductive InodeType where
  | TFile
  | TDirectory
  | TSymLink
deriving DecidableEq, Repr

/-- Modelled from the spec: an inode record (`inode_t` of the missing
`state.h`): kind, size in bytes, owned data-block index, link count and, for
symlinks, the target path (`i_target_d_name`). -/
structure Inode where
  nodeType : InodeType
  size : Nat
  dataBlock : Nat
  links : Nat
  targetName : String
deriving DecidableEq, Repr

/-- Modelled from the spec: a directory entry is a bounded name string plus
an inumber; a free slot (empty-name sentinel in C) is modelled as `none` in
the entry array. -/
structure DirEntry where
  name : String
  inumber : Nat
deriving DecidableEq, Repr

/-- Modelled from the spec: an open-file-table entry (`open_file_entry_t`):
the inumber of the open inode and the current file offset. -/
structure OpenFileEntry where
  inumber : Nat
  offset : Nat
deriving DecidableEq, Repr

/-- `tfs_params` from `config.h`: pool capacities and the block size. -/
structure TfsParams where
  maxInodeCount : Nat
  maxBlockCount : Nat
  maxOpenFilesCount : Nat
  blockSize : Nat
deriving DecidableEq, Repr

/-- The open-mode bitmask over `{TFS_O_CREAT, TFS_O_TRUNC, TFS_O_APPEND}`,
embedded as one boolean per bit. -/
structure TfsMode where
  creat : Bool
  trunc : Bool
  append : Bool
deriving DecidableEq, Repr

/-- Modelled from the spec: the global file-system state of the missing
`state.c` — the four fixed-capacity arenas.  A pool is a `List (Option _)`
whose `none` slots are the free ones (the free bitmaps of the C code).
The root directory's entry array (held in the root inode's data block in C,
with capacity `max_inode_count`) is kept as its own field `dirEntries`. -/
structure FsState where
  params : TfsParams
  inodes : List (Option Inode)
  blocks : List (Option (List Nat))
  dirEntries : List (Option DirEntry)
  openFiles : List (Option OpenFileEntry)
deriving DecidableEq, Repr

/-- Index of the first free (`none`) slot of a pool: the bitmap scan of the
arena allocators. -/
def firstFree : List (Option α) → Option Nat
  | [] => none
  | none :: _ => some 0
  | some _ :: rest => (firstFree rest).map (· + 1)

/-- `ROOT_DIR_INUM` of the C code. -/
def ROOT_DIR_INUM : Nat := 0

/-- Modelled from the spec: the bound on a directory-entry name
(`MAX_FILE_NAME` of the missing `config.h`; the spec only says the name is
bounded, the concrete value is not observable by any claim below). -/
def MAX_FILE_NAME : Nat := 40

/-- `state_block_size()` — the configured block size. -/
def state_block_size (st : FsState) : Nat := st.params.blockSize

/-- Modelled from the spec: `inode_get` — bounds- and allocation-checked
accessor of the inode pool (`NONE` for out-of-range or free slots). -/
def inode_get (st : FsState) (inum : Nat) : Option Inode :=
  (st.inodes.get? inum).join

/-- Modelled from the spec: `data_block_get` — bounds- and
allocation-checked accessor of the block pool. -/
def data_block_get (st : FsState) (b : Nat) : Option (List Nat) :=
  (st.blocks.get? b).join

/-- Modelled from the spec: `data_block_alloc` — first-free-slot allocation
from the block pool; returns `NONE` when the pool is full.  The fresh block
is modelled as zeroed (see the header comment). -/
def data_block_alloc (st : FsState) : Option (Nat × FsState) :=
  match firstFree st.blocks with
  | none => none
  | some b =>
      some (b, { st with
        blocks := st.blocks.set b (some (List.replicate st.params.blockSize 0)) })

/-- Modelled from the spec: `data_block_free` — clears the block's
allocation bit. -/
def data_block_free (st : FsState) (b : Nat) : FsState :=
  { st with blocks := st.blocks.set b none }

/-- Modelled from the spec: `inode_create(kind)` — allocates an inode slot
(first free), with `size = 0` and `link_count = 1`; for a DIRECTORY it also
allocates a data block, initialised to all-free entries, rolling the inode
back if block allocation fails; for a SYMLINK `target_name` is left empty
(the caller fills it). -/
def inode_create (st : FsState) (t : InodeType) : Option (Nat × FsState) :=
  match firstFree st.inodes with
  | none => none
  | some inum =>
      match t with
      | InodeType.TDirectory =>
          match firstFree st.blocks with
          | none => none
          | some b =>
              some (inum, { st with
                inodes := st.inodes.set inum
                  (some ⟨InodeType.TDirectory, 0, b, 1, ""⟩),
                blocks := st.blocks.set b
                  (some (List.replicate st.params.blockSize 0)),
                dirEntries := List.replicate st.params.maxInodeCount none })
      | t =>
          some (inum, { st with
            inodes := st.inodes.set inum (some ⟨t, 0, 0, 1, ""⟩) })

/-- Modelled from the spec: `inode_delete` — frees the inode's data block if
the inode is a FILE with `size > 0` or a DIRECTORY, then returns the inode
slot to the pool. -/
def inode_delete (st : FsState) (inum : Nat) : FsState :=
  match inode_get st inum with
  | none => st
  | some ino =>
      let st' :=
        if (ino.nodeType = InodeType.TFile ∧ ino.size > 0)
            ∨ ino.nodeType = InodeType.TDirectory then
          data_block_free st ino.dataBlock
        else st
      { st' with inodes := st'.inodes.set inum none }

/-- Modelled from the spec: write an inode back through its pool slot (the C
code mutates the inode through the pointer returned by `inode_get`). -/
def set_inode (st : FsState) (inum : Nat) (ino : Inode) : FsState :=
  { st with inodes := st.inodes.set inum (some ino) }

/-- Modelled from the spec: `find_in_dir` — linear scan of the root
directory's entry array for an exact name match, returning the inumber. -/
def findInDir : List (Option DirEntry) → String → Option Nat
  | [], _ => none
  | none :: rest, n => findInDir rest n
  | some e :: rest, n => if e.name = n then some e.inumber else findInDir rest n

/-- `find_in_dir` on the (sole, root) directory of the state. -/
def find_in_dir (st : FsState) (n : String) : Option Nat :=
  findInDir st.dirEntries n

/-- Modelled from the spec: `add_dir_entry` — fails if the name exceeds the
bound, if an entry with this name already exists, or if no free slot exists;
otherwise stores the entry in the first free slot. -/
def add_dir_entry (st : FsState) (n : String) (inum : Nat) :
    Option FsState :=
  if n.length > MAX_FILE_NAME then none
  else if (findInDir st.dirEntries n).isSome then none
  else
    match firstFree st.dirEntries with
    | none => none
    | some k =>
        some { st with dirEntries := st.dirEntries.set k (some ⟨n, inum⟩) }

/-- First-match removal in the entry array: the effect of `clear_dir_entry`
on the slots (absence makes `clear_dir_entry` fail in C, with no effect; its
only caller in `operations.c` ignores the return value, so the embedding
keeps just the state effect). -/
def clearFirst : List (Option DirEntry) → String → List (Option DirEntry)
  | [], _ => []
  | none :: rest, n => none :: clearFirst rest n
  | some e :: rest, n =>
      if e.name = n then none :: rest else some e :: clearFirst rest n

/-- Modelled from the spec: `clear_dir_entry` — empties the matching slot. -/
def clear_dir_entry (st : FsState) (n : String) : FsState :=
  { st with dirEntries := clearFirst st.dirEntries n }

/-- Modelled from the spec: `add_to_open_file_table` — allocates an
open-file entry (first free slot) bound to `(inum, offset)` and returns its
handle, or `NONE` when the table is full. -/
def add_to_open_file_table (st : FsState) (inum offset : Nat) :
    Option Nat × FsState :=
  match firstFree st.openFiles with
  | none => (none, st)
  | some h =>
      (some h, { st with openFiles := st.openFiles.set h (some ⟨inum, offset⟩) })

/-- Modelled from the spec: `get_open_file_entry` — bounds- and
liveness-checked accessor of the open-file table. -/
def get_open_file_entry (st : FsState) (fhandle : Nat) : Option OpenFileEntry :=
  (st.openFiles.get? fhandle).join

/-- Modelled from the spec: `remove_from_open_file_table` — frees the
entry. -/
def remove_from_open_file_table (st : FsState) (fhandle : Nat) : FsState :=
  { st with openFiles := st.openFiles.set fhandle none }

/-- Modelled from the spec: write an open-file entry back through its slot
(the C code mutates it through the pointer from `get_open_file_entry`). -/
def set_open_file (st : FsState) (fhandle : Nat) (e : OpenFileEntry) : FsState :=
  { st with openFiles := st.openFiles.set fhandle (some e) }

/-! ## The facade, translated from `src/fs/operations.c` -/

/-- `tfs_default_params` (operations.c:11). -/
def tfs_default_params : TfsParams :=
  { maxInodeCount := 64, maxBlockCount := 1024,
    maxOpenFilesCount := 16, blockSize := 1024 }

/-- Modelled from the spec: `state_init` — allocates the four arenas at
their configured capacities, all slots free. -/
def state_init (params : TfsParams) : FsState :=
  { params := params,
    inodes := List.replicate params.maxInodeCount none,
    blocks := List.replicate params.maxBlockCount none,
    dirEntries := List.replicate params.maxInodeCount none,
    openFiles := List.replicate params.maxOpenFilesCount none }

/-- `tfs_init` (operations.c:21): build the state, create the root DIRECTORY
inode and check it received `ROOT_DIR_INUM`. -/
def tfs_init (params : TfsParams) : Option FsState :=
  let st := state_init params
  match inode_create st InodeType.TDirectory with
  | none => none
  | some (root, st') => if root = ROOT_DIR_INUM then some st' else none

/-- `valid_pathname` (operations.c:49): non-null, length > 1, starts with
`/`. -/
def valid_pathname (name : String) : Bool :=
  name.length > 1 && name.front = '/'

/-- `tfs_lookup` (operations.c:64): validate, skip the initial `/`, then
scan the root directory. -/
def tfs_lookup (st : FsState) (name : String) : Option Nat :=
  if valid_pathname name then find_in_dir st (name.drop 1) else none

/-- `tfs_open` (operations.c:76), with an explicit recursion budget `fuel`
for the (unbounded, in C) symlink recursion; every claim below is settled
on paths whose resolution uses the fuel only as far as the C recursion
actually unwinds.  Returns the handle (`some h` for a non-negative handle,
`none` for `-1`) and the post state. -/
def tfs_open : Nat → FsState → String → TfsMode → Option Nat × FsState
  | 0, st, _, _ => (none, st)
  | fuel + 1, st, name, mode =>
    if ¬ valid_pathname name then (none, st)
    else
      match inode_get st ROOT_DIR_INUM with
      | none => (none, st)
      | some _ =>
        match tfs_lookup st name with
        | some inum =>
            match inode_get st inum with
            | none => (none, st)
            | some inode =>
                if inode.nodeType = InodeType.TSymLink then
                  if inode.targetName = name then (none, st)
                  else tfs_open fuel st inode.targetName mode
                else
                  let truncating := mode.trunc ∧ inode.size > 0
                  let st1 :=
                    if truncating then
                      set_inode (data_block_free st inode.dataBlock) inum
                        { inode with size := 0 }
                    else st
                  let inode1 := if truncating then { inode with size := 0 } else inode
                  let offset := if mode.append then inode1.size else 0
                  add_to_open_file_table st1 inum offset
        | none =>
            if mode.creat then
              match inode_create st InodeType.TFile with
              | none => (none, st)
              | some (inum, st1) =>
                  match add_dir_entry st1 (name.drop 1) inum with
                  | none => (none, inode_delete st1 inum)
                  | some st2 => add_to_open_file_table st2 inum 0
            else (none, st)

/-- `tfs_sym_link` (operations.c:143).  `some ()` stands for `0`, `none`
for `-1`. -/
def tfs_sym_link (st : FsState) (target link_name : String) :
    Option Unit × FsState :=
  if ¬ (valid_pathname link_name ∧ valid_pathname target) then (none, st)
  else
    match inode_get st ROOT_DIR_INUM with
    | none => (none, st)
    | some _ =>
      match tfs_lookup st target with
      | none => (none, st)
      | some _ =>
          match inode_create st InodeType.TSymLink with
          | none => (none, st)
          | some (iLinkNum, st1) =>
              match inode_get st1 iLinkNum with
              | none => (none, st1)
              | some iLink =>
                  let st2 := set_inode st1 iLinkNum { iLink with targetName := target }
                  match add_dir_entry st2 (link_name.drop 1) iLinkNum with
                  | none => (none, st2)
                  | some st3 => (some (), st3)

/-- `tfs_link` (operations.c:172). -/
def tfs_link (st : FsState) (target link_name : String) :
    Option Unit × FsState :=
  if ¬ (valid_pathname target ∧ valid_pathname link_name) then (none, st)
  else
    match inode_get st ROOT_DIR_INUM with
    | none => (none, st)
    | some _ =>
      match tfs_lookup st target with
      | none => (none, st)
      | some targetInumber =>
          match inode_get st targetInumber with
          | none => (none, st)
          | some itarget =>
              if itarget.nodeType = InodeType.TSymLink then (none, st)
              else
                match add_dir_entry st (link_name.drop 1) targetInumber with
                | none => (none, st)
                | some st1 =>
                    (some (), set_inode st1 targetInumber
                      { itarget with links := itarget.links + 1 })

/-- `tfs_close` (operations.c:202). -/
def tfs_close (st : FsState) (fhandle : Nat) : Option Unit × FsState :=
  match get_open_file_entry st fhandle with
  | none => (none, st)
  | some _ => (some (), remove_from_open_file_table st fhandle)

/-- `tfs_write` (operations.c:213).  The byte-count computations follow the
C `size_t` arithmetic modulo `W`; the result is the written byte count
(`some k` for the return value `k`, `none` for `-1`). -/
def tfs_write (st : FsState) (fhandle : Nat) (buffer : List Nat)
    (to_write : Nat) : Option Nat × FsState :=
  match get_open_file_entry st fhandle with
  | none => (none, st)
  | some file =>
    match inode_get st file.inumber with
    | none => (none, st)
    | some inode =>
      let block_size := state_block_size st
      let to_write1 :=
        if (to_write + file.offset) % W > block_size then
          (block_size + W - file.offset) % W
        else to_write
      if to_write1 > 0 then
        let allocated : Option (Nat × FsState) :=
          if inode.size = 0 then data_block_alloc st
          else some (inode.dataBlock, st)
        match allocated with
        | none => (none, st)
        | some (bnum, st1) =>
            let inode1 :=
              if inode.size = 0 then { inode with dataBlock := bnum } else inode
            match data_block_get st1 bnum with
            | none => (none, st1)
            | some block =>
                let block1 := block.take file.offset ++ buffer.take to_write1
                  ++ block.drop (file.offset + to_write1)
                let st2 := { st1 with blocks := st1.blocks.set bnum (some block1) }
                let newOffset := (file.offset + to_write1) % W
                let inode2 :=
                  if newOffset > inode1.size then { inode1 with size := newOffset }
                  else inode1
                let st3 := set_inode st2 file.inumber inode2
                let st4 := set_open_file st3 fhandle { file with offset := newOffset }
                (some to_write1, st4)
      else (some to_write1, st)

/-- `tfs_read` (operations.c:256).  The available-byte computation is the C
`size_t` subtraction `i_size - of_offset`, i.e. modulo `W`.  The result is
the list of bytes delivered to the caller's buffer (so the returned count is
its length in every theorem below), `none` for `-1`. -/
def tfs_read (st : FsState) (fhandle : Nat) (len : Nat) :
    Option (List Nat) × FsState :=
  match get_open_file_entry st fhandle with
  | none => (none, st)
  | some file =>
    match inode_get st file.inumber with
    | none => (none, st)
    | some inode =>
      let to_read0 := (inode.size + W - file.offset) % W
      let to_read := if to_read0 > len then len else to_read0
      if to_read > 0 then
        match data_block_get st inode.dataBlock with
        | none => (none, st)
        | some block =>
            let bytes := (block.drop file.offset).take to_read
            let st1 := set_open_file st fhandle
              { file with offset := (file.offset + to_read) % W }
            (some bytes, st1)
      else (some [], st)

/-- `tfs_unlink` (operations.c:285). -/
def tfs_unlink (st : FsState) (target : String) : Option Unit × FsState :=
  if ¬ valid_pathname target then (none, st)
  else
    match inode_get st ROOT_DIR_INUM with
    | none => (none, st)
    | some _ =>
      match tfs_lookup st target with
      | none => (none, st)
      | some iTargetNum =>
          match inode_get st iTargetNum with
          | none => (none, st)
          | some iTarget =>
              let st1 :=
                if iTarget.links - 1 = 0 then inode_delete st iTargetNum
                else set_inode st iTargetNum { iTarget with links := iTarget.links - 1 }
              (some (), clear_dir_entry st1 (target.drop 1))

/-! ## Reachability and invariants -/

/-- One facade call, as a transition on states (any arguments, any symlink
recursion budget for `tfs_open`). -/
inductive Step : FsState → FsState → Prop where
  | opn (st : FsState) (fuel : Nat) (name : String) (mode : TfsMode) :
      Step st (tfs_open fuel st name mode).2
  | close (st : FsState) (fh : Nat) : Step st (tfs_close st fh).2
  | read (st : FsState) (fh len : Nat) : Step st (tfs_read st fh len).2
  | write (st : FsState) (fh : Nat) (buf : List Nat) (n : Nat) :
      Step st (tfs_write st fh buf n).2
  | link (st : FsState) (t l : String) : Step st (tfs_link st t l).2
  | symLink (st : FsState) (t l : String) : Step st (tfs_sym_link st t l).2
  | unlink (st : FsState) (t : String) : Step st (tfs_unlink st t).2

/-- States reachable from a freshly initialized file system by facade
calls. -/
inductive Reachable : FsState → Prop where
  | init (p : TfsParams) (st : FsState) : tfs_init p = some st → Reachable st
  | step {st st' : FsState} : Reachable st → Step st st' → Reachable st'

/-- Does this directory slot hold an entry named `n`? -/
def namedP (n : String) : Option DirEntry → Bool
  | some e => e.name = n
  | none => false

/-- Number of directory slots holding an entry named `n`. -/
def entriesNamed (l : List (Option DirEntry)) (n : String) : Nat :=
  l.countP (namedP n)

/-- Directory-name uniqueness: at most one entry per name (the spec's
"Names within a directory are unique"). -/
def UniqInv (st : FsState) : Prop :=
  ∀ n : String, entriesNamed st.dirEntries n ≤ 1

/-- Every allocated SYMLINK inode has link count 1 (the spec's "SYMLINK…
link_count … semantically 1", maintained by construction). -/
def SymInv (st : FsState) : Prop :=
  ∀ (inum : Nat) (ino : Inode), st.inodes.get? inum = some (some ino) →
    ino.nodeType = InodeType.TSymLink → ino.links = 1

/-- The inductive invariant used below. -/
def Inv (st : FsState) : Prop := SymInv st ∧ UniqInv st

/-- The open-file-table invariant of the spec's data model: every allocated
open-file entry references a currently allocated inode. -/
def OpenInv (st : FsState) : Prop :=
  ∀ (fh : Nat) (e : OpenFileEntry), st.openFiles.get? fh = some (some e) →
    (inode_get st e.inumber).isSome

/-! ## Concrete fixtures (small configurations, used by the closed
counterexample/witness theorems) -/

/-- A small configuration: 4 inodes, 4 blocks, 2 open files, 8-byte
blocks. -/
def p8 : TfsParams := ⟨4, 4, 2, 8⟩

/-- The freshly initialized state for `p8`. -/
def st8 : FsState := (tfs_init p8).getD (state_init p8)

/-- `st8` after `tfs_open("/x", CREAT)` (handle 0). -/
def st8a : FsState := (tfs_open 1 st8 "/x" ⟨true, false, false⟩).2

/-- `st8a` after `tfs_write(0, [1,1,1,1], 4)` (file size 4, offset 4). -/
def st8b : FsState := (tfs_write st8a 0 [1, 1, 1, 1] 4).2

/-- `st8b` after `tfs_open("/x", TRUNC)` (handle 1; frees the data block and
resets the size to 0, while handle 0 still has offset 4). -/
def st8c : FsState := (tfs_open 1 st8b "/x" ⟨false, true, false⟩).2

/-- `st8c` after `tfs_write(1, [2], 1)` (re-allocates a data block; size 1,
while handle 0 still has offset 4 > size). -/
def st8d : FsState := (tfs_write st8c 1 [2] 1).2

/-- `st8a` after `tfs_unlink("/x")` — the inode of the still-open handle 0
is deleted. -/
def st8u : FsState := (tfs_unlink st8a "/x").2

/-- A configuration whose block pool (2 blocks: one for the root directory,
one spare) can be exhausted. -/
def p2 : TfsParams := ⟨8, 2, 4, 8⟩

/-- The freshly initialized state for `p2`. -/
def s2i : FsState := (tfs_init p2).getD (state_init p2)

/-- `s2i` after `open("/a", CREAT)`; `write(0, [7], 1)` — the last free data
block is now owned by `/a`.  No entry named `/f` exists in this state. -/
def s2a : FsState := (tfs_write (tfs_open 1 s2i "/a" ⟨true, false, false⟩).2 0 [7] 1).2

/-- `open("/f", CREAT|TRUNC)` on `s2a`: succeeds (inode and directory slot
are free) with handle 1. -/
def s2open : Option Nat × FsState := tfs_open 1 s2a "/f" ⟨true, true, false⟩

/-- `write(1, [42], 1)` on the opened `/f`: fails (`none` = −1), since the
block pool is exhausted. -/
def s2wr : Option Nat × FsState := tfs_write s2open.2 1 [42] 1

/-- Close handle 1, then re-open `/f` with mode 0. -/
def s2open2 : Option Nat × FsState :=
  tfs_open 1 (tfs_close s2wr.2 1).2 "/f" ⟨false, false, false⟩

/-- `read` of up to `block_size` bytes from the re-opened `/f`. -/
def s2rd : Option (List Nat) × FsState := tfs_read s2open2.2 1 8

/-- The intermediate state of a successful `inode_create(T_FILE)` on `st8`
(used to instantiate the C6 theorem). -/
def c6st1 : FsState := ((inode_create st8 InodeType.TFile).getD (0, st8)).2

/-- `st8` after `open("/t", CREAT)`, `close`, `sym_link("/t", "/s")`: the
state holds a SYMLINK inode (inumber 2) with `target_name = "/t"`,
reachable as `/s`. -/
def c7st : FsState :=
  (tfs_sym_link (tfs_close (tfs_open 1 st8 "/t" ⟨true, false, false⟩).2 0).2
    "/t" "/s").2

/-- The intermediate state of a successful `inode_create(T_SYM_LINK)` on
`s2a` (used to instantiate the C10 theorem). -/
def c10st1 : FsState := ((inode_create s2a InodeType.TSymLink).getD (0, s2a)).2

/-- `st8` after `open("/f", CREAT|TRUNC)` (handle 0). -/
def c1st1 : FsState := (tfs_open 1 st8 "/f" ⟨true, true, false⟩).2

/-- `c1st1` after `write(0, [5,6,7], 3)`. -/
def c1st2 : FsState := (tfs_write c1st1 0 [5, 6, 7] 3).2

end TFS

/-! ## Helper lemmas on pool scans and the directory entry array -/

namespace TFS

theorem firstFree_get {α : Type _} (l : List (Option α)) (j : Nat)
    (h : firstFree l = some j) : l.get? j = some none := by
  induction l generalizing j with
  | nil => simp [firstFree] at h
  | cons a rest ih =>
    cases a with
    | none =>
        simp [firstFree] at h
        subst h
        rfl
    | some x =>
        simp only [firstFree, Option.map_eq_some'] at h
        obtain ⟨k, hk, rfl⟩ := h
        simpa using ih k hk

theorem firstFree_isSome_of_free {α : Type _} (l : List (Option α)) (k : Nat)
    (h : l.get? k = some none) : (firstFree l).isSome := by
  induction l generalizing k with
  | nil => simp at h
  | cons a rest ih =>
    cases a with
    | none => simp [firstFree]
    | some x =>
        cases k with
        | zero => simp at h
        | succ k =>
            have hr := ih k (by simpa using h)
            simp only [firstFree, Option.isSome_map']
            exact hr

theorem set_none_eq_self {α : Type _} (l : List (Option α)) (k : Nat)
    (h : l.get? k = some none) : l.set k none = l := by
  induction l generalizing k with
  | nil => rfl
  | cons a rest ih =>
    cases k with
    | zero =>
        simp at h
        subst h
        rfl
    | succ k =>
        simp only [List.set]
        rw [ih k (by simpa using h)]

theorem entriesNamed_nil (n : String) : entriesNamed [] n = 0 := rfl

theorem entriesNamed_cons (a : Option DirEntry) (l : List (Option DirEntry))
    (n : String) :
    entriesNamed (a :: l) n = (if namedP n a then 1 else 0) + entriesNamed l n := by
  simp [entriesNamed, List.countP_cons]
  omega

theorem entriesNamed_replicate (m : Nat) (n : String) :
    entriesNamed (List.replicate m none) n = 0 := by
  induction m with
  | zero => rfl
  | succ m ih => simpa [List.replicate, entriesNamed_cons, namedP] using ih

theorem findInDir_eq_none_of_zero (l : List (Option DirEntry)) (n : String)
    (h : entriesNamed l n = 0) : findInDir l n = none := by
  induction l with
  | nil => rfl
  | cons a rest ih =>
    cases a with
    | none =>
        simp [entriesNamed_cons, namedP] at h
        simpa [findInDir] using ih h
    | some e =>
        rw [entriesNamed_cons] at h
        by_cases he : e.name = n
        · simp [namedP, he] at h
        · simp [namedP, he] at h
          simpa [findInDir, he] using ih h

theorem zero_of_findInDir_none (l : List (Option DirEntry)) (n : String)
    (h : findInDir l n = none) : entriesNamed l n = 0 := by
  induction l with
  | nil => rfl
  | cons a rest ih =>
    cases a with
    | none =>
        simp [findInDir] at h
        simpa [entriesNamed_cons, namedP] using ih h
    | some e =>
        by_cases he : e.name = n
        · simp [findInDir, he] at h
        · simp [findInDir, he] at h
          simpa [entriesNamed_cons, namedP, he] using ih h

theorem findInDir_clearFirst (l : List (Option DirEntry)) (n : String)
    (h : entriesNamed l n ≤ 1) : findInDir (clearFirst l n) n = none := by
  induction l with
  | nil => rfl
  | cons a rest ih =>
    cases a with
    | none =>
        rw [entriesNamed_cons] at h
        simp [namedP] at h
        simpa [clearFirst, findInDir] using ih h
    | some e =>
        by_cases he : e.name = n
        · rw [entriesNamed_cons] at h
          simp [namedP, he] at h
          have h0 : entriesNamed rest n = 0 := by omega
          simpa [clearFirst, he, findInDir] using
            findInDir_eq_none_of_zero rest n h0
        · rw [entriesNamed_cons] at h
          simp [namedP, he] at h
          simpa [clearFirst, he, findInDir] using ih h

theorem entriesNamed_set_free (l : List (Option DirEntry)) (k : Nat)
    (x : Option DirEntry) (n : String) (h : l.get? k = some none) :
    entriesNamed (l.set k x) n
      = entriesNamed l n + (if namedP n x then 1 else 0) := by
  induction l generalizing k with
  | nil => simp at h
  | cons a rest ih =>
    cases k with
    | zero =>
        simp at h
        subst h
        simp [List.set, entriesNamed_cons, namedP]
        omega
    | succ k =>
        simp only [List.set, entriesNamed_cons]
        rw [ih k (by simpa using h)]
        omega

theorem entriesNamed_clearFirst_le (l : List (Option DirEntry)) (m n : String) :
    entriesNamed (clearFirst l m) n ≤ entriesNamed l n := by
  induction l with
  | nil => exact Nat.le_refl _
  | cons a rest ih =>
    cases a with
    | none =>
        simp only [clearFirst, entriesNamed_cons]
        omega
    | some e =>
        by_cases he : e.name = m
        · rw [show clearFirst (some e :: rest) m = none :: rest by
            simp [clearFirst, he]]
          rw [entriesNamed_cons, entriesNamed_cons]
          simp [namedP]
        · rw [show clearFirst (some e :: rest) m = some e :: clearFirst rest m by
            simp [clearFirst, he]]
          rw [entriesNamed_cons, entriesNamed_cons]
          omega

theorem findInDir_set_fresh (l : List (Option DirEntry)) (k : Nat)
    (n : String) (i : Nat) (hnone : findInDir l n = none)
    (hfree : l.get? k = some none) :
    findInDir (l.set k (some ⟨n, i⟩)) n = some i := by
  induction l generalizing k with
  | nil => simp at hfree
  | cons a rest ih =>
    cases k with
    | zero =>
        simp at hfree
        subst hfree
        simp [List.set, findInDir]
    | succ k =>
        cases a with
        | none =>
            simp only [findInDir] at hnone
            simp only [List.set, findInDir]
            exact ih k hnone (by simpa using hfree)
        | some e =>
            by_cases he : e.name = n
            · simp [findInDir, he] at hnone
            · simp only [findInDir, he, if_neg, not_false_iff] at hnone
              simp only [List.set, findInDir, he, if_neg, not_false_iff]
              exact ih k hnone (by simpa using hfree)

end TFS

namespace TFS

theorem firstFree_lt {α : Type _} (l : List (Option α)) (j : Nat)
    (h : firstFree l = some j) : j < l.length := by
  have h' := firstFree_get l j h
  exact (List.get?_eq_some.mp h').1

theorem get?_set_self {α : Type _} (l : List α) (k : Nat) (x : α)
    (h : k < l.length) : (l.set k x).get? k = some x :=
  List.get?_set_eq_of_lt x h

/-- Characterisation of a successful non-directory `inode_create`. -/
theorem inode_create_nondir (st : FsState) (t : InodeType)
    (ht : t ≠ InodeType.TDirectory) (inum : Nat) (st1 : FsState)
    (h : inode_create st t = some (inum, st1)) :
    firstFree st.inodes = some inum ∧
      st1 = { st with inodes := st.inodes.set inum (some ⟨t, 0, 0, 1, ""⟩) } := by
  cases hf : firstFree st.inodes with
  | none => unfold inode_create at h; rw [hf] at h; simp at h
  | some j =>
      unfold inode_create at h
      rw [hf] at h
      cases t with
      | TDirectory => exact absurd rfl ht
      | TFile =>
          simp only [Option.some.injEq, Prod.mk.injEq] at h
          obtain ⟨rfl, h2⟩ := h
          exact ⟨rfl, h2.symm⟩
      | TSymLink =>
          simp only [Option.some.injEq, Prod.mk.injEq] at h
          obtain ⟨rfl, h2⟩ := h
          exact ⟨rfl, h2.symm⟩

/-- The three failure conditions of `add_dir_entry`. -/
def addEntryFails (entries : List (Option DirEntry)) (n : String) : Prop :=
  n.length > MAX_FILE_NAME ∨ (findInDir entries n).isSome ∨
    firstFree entries = none

theorem add_dir_entry_eq_none_iff (st : FsState) (n : String) (i : Nat) :
    add_dir_entry st n i = none ↔ addEntryFails st.dirEntries n := by
  unfold add_dir_entry addEntryFails
  by_cases h1 : n.length > MAX_FILE_NAME
  · simp [h1]
  · simp only [h1, if_false, false_or]
    by_cases h2 : (findInDir st.dirEntries n).isSome
    · simp [h2]
    · simp only [h2, if_false, false_or]
      cases hf : firstFree st.dirEntries <;> simp

/-- Characterisation of a successful `add_dir_entry`. -/
theorem add_dir_entry_some (st : FsState) (n : String) (i : Nat)
    (st' : FsState) (h : add_dir_entry st n i = some st') :
    ∃ k, firstFree st.dirEntries = some k ∧ findInDir st.dirEntries n = none ∧
      st' = { st with dirEntries := st.dirEntries.set k (some ⟨n, i⟩) } := by
  unfold add_dir_entry at h
  by_cases h1 : n.length > MAX_FILE_NAME
  · simp [h1] at h
  · rw [if_neg h1] at h
    by_cases h2 : (findInDir st.dirEntries n).isSome
    · simp [h2] at h
    · rw [if_neg h2] at h
      cases hf : firstFree st.dirEntries with
      | none => rw [hf] at h; simp at h
      | some k =>
          rw [hf] at h
          simp only [Option.some.injEq] at h
          exact ⟨k, rfl, Option.not_isSome_iff_eq_none.mp h2, h.symm⟩

end TFS

namespace TFS

/-- C10: if `tfs_sym_link` allocates the SYMLINK inode (with `target_name`
already set to `target`) but adding the directory entry for `link_name`
fails, it returns −1 without deleting that inode: the call is not atomic on
this error path — the SYMLINK inode remains allocated in the inode pool
while the directory entries are exactly those before the call, so no
directory entry reaches it. -/
theorem c10_symlink_inode_leak (st st1 : FsState) (target link_name : String)
    (iLinkNum tnum : Nat)
    (hv1 : valid_pathname link_name) (hv2 : valid_pathname target)
    (hroot : (inode_get st ROOT_DIR_INUM).isSome)
    (htgt : tfs_lookup st target = some tnum)
    (hcreate : inode_create st InodeType.TSymLink = some (iLinkNum, st1))
    (hfail : addEntryFails st.dirEntries (link_name.drop 1)) :
    (tfs_sym_link st target link_name).1 = none ∧
      (tfs_sym_link st target link_name).2.dirEntries = st.dirEntries ∧
      inode_get (tfs_sym_link st target link_name).2 iLinkNum
        = some ⟨InodeType.TSymLink, 0, 0, 1, target⟩ := by
  obtain ⟨hff, hst1⟩ := inode_create_nondir st _ (by decide) _ _ hcreate
  obtain ⟨rootIno, hr⟩ := Option.isSome_iff_exists.mp hroot
  have hlt : iLinkNum < st.inodes.length := firstFree_lt _ _ hff
  have hget1 : inode_get st1 iLinkNum
      = some ⟨InodeType.TSymLink, 0, 0, 1, ""⟩ := by
    rw [hst1]
    show ((st.inodes.set iLinkNum
      (some ⟨InodeType.TSymLink, 0, 0, 1, ""⟩)).get? iLinkNum).join = _
    rw [get?_set_self _ _ _ hlt]
    rfl
  have hd1 : st1.dirEntries = st.dirEntries := by rw [hst1]
  have hadd : add_dir_entry (set_inode st1 iLinkNum
        ⟨InodeType.TSymLink, 0, 0, 1, target⟩) (link_name.drop 1) iLinkNum
      = none := by
    rw [add_dir_entry_eq_none_iff]
    show addEntryFails st1.dirEntries _
    rw [hd1]
    exact hfail
  have hrun : tfs_sym_link st target link_name =
      (none, set_inode st1 iLinkNum ⟨InodeType.TSymLink, 0, 0, 1, target⟩) := by
    unfold tfs_sym_link
    rw [if_neg (by simp [hv1, hv2])]
    simp only [hr, htgt, hcreate, hget1, hadd]
  rw [hrun]
  refine ⟨rfl, ?_, ?_⟩
  · show (set_inode st1 iLinkNum _).dirEntries = st.dirEntries
    rw [show (set_inode st1 iLinkNum
      ⟨InodeType.TSymLink, 0, 0, 1, target⟩).dirEntries = st1.dirEntries from rfl, hd1]
  · have hlt1 : iLinkNum < st1.inodes.length := by
      rw [hst1]
      simpa using hlt
    show ((st1.inodes.set iLinkNum
      (some ⟨InodeType.TSymLink, 0, 0, 1, target⟩)).get? iLinkNum).join = _
    rw [get?_set_self _ _ _ hlt1]
    rfl

end TFS

namespace TFS

/-- C9: `tfs_sym_link` returns −1 with the state unchanged (so a dangling
symlink is never created) whenever a path is invalid or the target path does
not resolve in the root directory; and whenever it returns 0 it has created
a SYMLINK inode whose `target_name` equals the target path and added a
directory entry for `link_name` that resolves to that inode. -/
theorem c9_sym_link_requires_target (st : FsState) (target link_name : String) :
    ((¬ (valid_pathname link_name ∧ valid_pathname target) ∨
        tfs_lookup st target = none) →
      tfs_sym_link st target link_name = (none, st)) ∧
    (∀ st', tfs_sym_link st target link_name = (some (), st') →
      ∃ inum ino, inode_get st' inum = some ino ∧
        ino.nodeType = InodeType.TSymLink ∧ ino.targetName = target ∧
        tfs_lookup st' link_name = some inum) := by
  constructor
  · intro h
    by_cases hv : valid_pathname link_name ∧ valid_pathname target
    · have hlk : tfs_lookup st target = none := by
        rcases h with h | h
        · exact absurd hv h
        · exact h
      unfold tfs_sym_link
      rw [if_neg (by simp [hv.1, hv.2])]
      cases hr : inode_get st ROOT_DIR_INUM with
      | none => rfl
      | some rootIno => simp only [hlk]
    · unfold tfs_sym_link
      rw [if_pos]
      simpa using hv
  · intro st' h
    by_cases hv : valid_pathname link_name ∧ valid_pathname target
    · unfold tfs_sym_link at h
      rw [if_neg (by simp [hv.1, hv.2])] at h
      cases hr : inode_get st ROOT_DIR_INUM with
      | none => rw [hr] at h; simp at h
      | some rootIno =>
        rw [hr] at h
        cases hlk : tfs_lookup st target with
        | none => simp only [hlk] at h; simp at h
        | some tnum =>
          simp only [hlk] at h
          cases hc : inode_create st InodeType.TSymLink with
          | none => simp only [hc] at h; simp at h
          | some pr =>
            obtain ⟨iLinkNum, st1⟩ := pr
            obtain ⟨hff, hst1⟩ := inode_create_nondir st _ (by decide) _ _ hc
            have hlt : iLinkNum < st.inodes.length := firstFree_lt _ _ hff
            have hget1 : inode_get st1 iLinkNum
                = some ⟨InodeType.TSymLink, 0, 0, 1, ""⟩ := by
              rw [hst1]
              show ((st.inodes.set iLinkNum
                (some ⟨InodeType.TSymLink, 0, 0, 1, ""⟩)).get? iLinkNum).join = _
              rw [get?_set_self _ _ _ hlt]
              rfl
            simp only [hc, hget1] at h
            cases hadd : add_dir_entry (set_inode st1 iLinkNum
                ⟨InodeType.TSymLink, 0, 0, 1, target⟩)
                (link_name.drop 1) iLinkNum with
            | none => simp only [hadd] at h; simp at h
            | some st3 =>
              simp only [hadd] at h
              simp only [Prod.mk.injEq] at h
              obtain ⟨-, rfl⟩ := h
              obtain ⟨k, hk, hnone, hst3⟩ := add_dir_entry_some _ _ _ _ hadd
              refine ⟨iLinkNum, ⟨InodeType.TSymLink, 0, 0, 1, target⟩, ?_, rfl, rfl, ?_⟩
              · rw [hst3]
                show ((set_inode st1 iLinkNum
                  ⟨InodeType.TSymLink, 0, 0, 1, target⟩).inodes.get? iLinkNum).join = _
                show ((st1.inodes.set iLinkNum
                  (some ⟨InodeType.TSymLink, 0, 0, 1, target⟩)).get? iLinkNum).join = _
                have hlt1 : iLinkNum < st1.inodes.length := by
                  rw [hst1]
                  simpa using hlt
                rw [get?_set_self _ _ _ hlt1]
                rfl
              · unfold tfs_lookup
                rw [if_pos hv.1]
                show findInDir st3.dirEntries (link_name.drop 1) = some iLinkNum
                rw [hst3]
                show findInDir ((set_inode st1 iLinkNum
                    ⟨InodeType.TSymLink, 0, 0, 1, target⟩).dirEntries.set k
                  (some ⟨link_name.drop 1, iLinkNum⟩)) (link_name.drop 1) = some iLinkNum
                have hd2 : (set_inode st1 iLinkNum
                    ⟨InodeType.TSymLink, 0, 0, 1, target⟩).dirEntries
                    = st1.dirEntries := rfl
                rw [hd2] at hk hnone ⊢
                exact findInDir_set_fresh _ _ _ _ hnone (firstFree_get _ _ hk)
    · unfold tfs_sym_link at h
      rw [if_pos (by simpa using hv)] at h
      simp at h

end TFS

namespace TFS

/-- C8: for valid paths whose target resolves to inode `tnum` holding `ino`:
`tfs_link` returns −1 with the state (in particular the link count)
unchanged if the target is a SYMLINK or if adding the directory entry fails;
on success it returns 0, the new entry makes `link_name` resolve to `tnum`,
and the target inode's link count is incremented by exactly 1. -/
theorem c8_link_spec (st : FsState) (target link_name : String)
    (tnum : Nat) (ino : Inode)
    (hv1 : valid_pathname target) (hv2 : valid_pathname link_name)
    (hroot : (inode_get st ROOT_DIR_INUM).isSome)
    (hlk : tfs_lookup st target = some tnum)
    (hino : inode_get st tnum = some ino) :
    (ino.nodeType = InodeType.TSymLink →
      tfs_link st target link_name = (none, st)) ∧
    (addEntryFails st.dirEntries (link_name.drop 1) →
      tfs_link st target link_name = (none, st)) ∧
    (∀ st1, ino.nodeType ≠ InodeType.TSymLink →
      add_dir_entry st (link_name.drop 1) tnum = some st1 →
      (tfs_link st target link_name).1 = some () ∧
      tfs_lookup (tfs_link st target link_name).2 link_name = some tnum ∧
      inode_get (tfs_link st target link_name).2 tnum
        = some { ino with links := ino.links + 1 }) := by
  obtain ⟨rootIno, hr⟩ := Option.isSome_iff_exists.mp hroot
  refine ⟨?_, ?_, ?_⟩
  · intro hsym
    unfold tfs_link
    rw [if_neg (by simp [hv1, hv2])]
    simp only [hr, hlk, hino, hsym, if_pos]
  · intro hfails
    unfold tfs_link
    rw [if_neg (by simp [hv1, hv2])]
    by_cases hsym : ino.nodeType = InodeType.TSymLink
    · simp only [hr, hlk, hino, hsym, if_pos]
    · have hadd : add_dir_entry st (link_name.drop 1) tnum = none :=
        (add_dir_entry_eq_none_iff st _ tnum).mpr hfails
      simp only [hr, hlk, hino, hsym, if_neg, hadd, if_false]
  · intro st1 hsym hadd
    have hrun : tfs_link st target link_name =
        (some (), set_inode st1 tnum { ino with links := ino.links + 1 }) := by
      unfold tfs_link
      rw [if_neg (by simp [hv1, hv2])]
      simp only [hr, hlk, hino, hsym, if_neg, hadd, if_false]
    obtain ⟨k, hk, hnone, hst1⟩ := add_dir_entry_some _ _ _ _ hadd
    have htlt : tnum < st.inodes.length := by
      unfold inode_get at hino
      cases hq : st.inodes.get? tnum with
      | none => rw [hq] at hino; simp at hino
      | some o => exact (List.get?_eq_some.mp hq).1
    refine ⟨by rw [hrun], ?_, ?_⟩
    · rw [hrun]
      unfold tfs_lookup
      rw [if_pos hv2]
      show findInDir (set_inode st1 tnum _).dirEntries (link_name.drop 1) = some tnum
      have hd : (set_inode st1 tnum
          { ino with links := ino.links + 1 }).dirEntries = st1.dirEntries := rfl
      rw [hd, hst1]
      show findInDir (st.dirEntries.set k
        (some ⟨link_name.drop 1, tnum⟩)) (link_name.drop 1) = some tnum
      exact findInDir_set_fresh _ _ _ _ hnone (firstFree_get _ _ hk)
    · rw [hrun]
      show ((st1.inodes.set tnum
        (some { ino with links := ino.links + 1 })).get? tnum).join = _
      have hlt1 : tnum < st1.inodes.length := by
        rw [hst1]
        simpa using htlt
      rw [get?_set_self _ _ _ hlt1]
      rfl

end TFS

namespace TFS

theorem set_set_restore {α : Type _} (l : List (Option α)) (j : Nat)
    (x : Option α) (h : l.get? j = some none) :
    (l.set j x).set j none = l := by
  rw [List.set_set]
  exact set_none_eq_self l j h

/-- C6: opening a missing path with CREAT: if the FILE inode is created but
adding its directory entry fails, `tfs_open` deletes the inode again and
returns −1 with the state exactly as before the call (in particular the
inode pool); if instead the entry is added but the open-file table is full,
`tfs_open` returns −1 yet the created file remains in the directory. -/
theorem c6_open_create_error_paths (st st1 : FsState) (name : String)
    (mode : TfsMode) (inum : Nat) (fuel : Nat)
    (hv : valid_pathname name)
    (hroot : (inode_get st ROOT_DIR_INUM).isSome)
    (hlk : tfs_lookup st name = none)
    (hcreat : mode.creat = true)
    (hcreate : inode_create st InodeType.TFile = some (inum, st1)) :
    (addEntryFails st.dirEntries (name.drop 1) →
      tfs_open (fuel + 1) st name mode = (none, st)) ∧
    (∀ st2, add_dir_entry st1 (name.drop 1) inum = some st2 →
      firstFree st.openFiles = none →
      tfs_open (fuel + 1) st name mode = (none, st2) ∧
        find_in_dir st2 (name.drop 1) = some inum) := by
  obtain ⟨rootIno, hr⟩ := Option.isSome_iff_exists.mp hroot
  obtain ⟨hff, hst1⟩ := inode_create_nondir st _ (by decide) _ _ hcreate
  have hlt : inum < st.inodes.length := firstFree_lt _ _ hff
  have hd1 : st1.dirEntries = st.dirEntries := by rw [hst1]
  constructor
  · intro hfails
    have hadd : add_dir_entry st1 (name.drop 1) inum = none := by
      rw [add_dir_entry_eq_none_iff, hd1]
      exact hfails
    have hget1 : inode_get st1 inum = some ⟨InodeType.TFile, 0, 0, 1, ""⟩ := by
      rw [hst1]
      show ((st.inodes.set inum
        (some ⟨InodeType.TFile, 0, 0, 1, ""⟩)).get? inum).join = _
      rw [get?_set_self _ _ _ hlt]
      rfl
    have hdel : inode_delete st1 inum = st := by
      unfold inode_delete
      rw [hget1]
      show { st1 with inodes := st1.inodes.set inum none } = st
      rw [hst1]
      show { st with inodes := (st.inodes.set inum
        (some ⟨InodeType.TFile, 0, 0, 1, ""⟩)).set inum none } = st
      rw [set_set_restore _ _ _ (firstFree_get _ _ hff)]
    unfold tfs_open
    rw [if_neg (by simp [hv])]
    simp only [hr, hlk, hcreat, if_true, hcreate, hadd, hdel]
  · intro st2 hadd hfull
    have hrun : tfs_open (fuel + 1) st name mode
        = add_to_open_file_table st2 inum 0 := by
      unfold tfs_open
      rw [if_neg (by simp [hv])]
      simp only [hr, hlk, hcreat, if_true, hcreate, hadd]
    obtain ⟨k, hk, hnone, hst2⟩ := add_dir_entry_some _ _ _ _ hadd
    have hoftbl : add_to_open_file_table st2 inum 0 = (none, st2) := by
      unfold add_to_open_file_table
      have : st2.openFiles = st.openFiles := by rw [hst2, hst1]
      rw [this, hfull]
    refine ⟨by rw [hrun, hoftbl], ?_⟩
    unfold find_in_dir
    rw [hst2, hd1]
    show findInDir (st.dirEntries.set k
      (some ⟨name.drop 1, inum⟩)) (name.drop 1) = some inum
    rw [hd1] at hnone hk
    exact findInDir_set_fresh _ _ _ _ hnone (firstFree_get _ _ hk)

end TFS

namespace TFS

theorem valid_of_lookup_some (st : FsState) (name : String) (i : Nat)
    (h : tfs_lookup st name = some i) : valid_pathname name = true := by
  unfold tfs_lookup at h
  by_cases hv : valid_pathname name
  · exact hv
  · rw [if_neg hv] at h
    simp at h

/-- C7 (amended): if a path resolves to a SYMLINK inode whose `target_name`
equals the opened path itself, `tfs_open` returns −1 and changes nothing;
otherwise opening the symlink recurses as `tfs_open(target_name, mode)` with
the same mode.  In particular `tfs_sym_link("/s","/s")` in a state with no
entry named `s` fails with −1 and changes nothing, after which
`tfs_open("/s", mode)` returns −1 for every mode not containing CREAT
(for modes with CREAT the open takes the ordinary create path instead,
whose outcome depends on the state, so no −1 guarantee holds there). -/
theorem c7_symlink_self_loop (st : FsState) (name : String) (mode : TfsMode)
    (fuel : Nat) (inum : Nat) (ino : Inode)
    (hroot : (inode_get st ROOT_DIR_INUM).isSome)
    (hlk : tfs_lookup st name = some inum)
    (hino : inode_get st inum = some ino)
    (hsym : ino.nodeType = InodeType.TSymLink) :
    (ino.targetName = name → tfs_open (fuel + 1) st name mode = (none, st)) ∧
    (ino.targetName ≠ name →
      tfs_open (fuel + 1) st name mode = tfs_open fuel st ino.targetName mode) ∧
    (∀ st' : FsState, findInDir st'.dirEntries "s" = none →
      (inode_get st' ROOT_DIR_INUM).isSome →
      tfs_sym_link st' "/s" "/s" = (none, st') ∧
        (mode.creat = false → (tfs_open (fuel + 1) st' "/s" mode).1 = none)) := by
  have hv : valid_pathname name = true := valid_of_lookup_some st name inum hlk
  obtain ⟨rootIno, hr⟩ := Option.isSome_iff_exists.mp hroot
  refine ⟨?_, ?_, ?_⟩
  · intro htgt
    unfold tfs_open
    rw [if_neg (by simp [hv])]
    simp only [hr, hlk, hino]
    rw [if_pos hsym, if_pos htgt]
  · intro htgt
    suffices h : ∀ r, tfs_open fuel st ino.targetName mode = r →
        tfs_open (fuel + 1) st name mode = r from h _ rfl
    intro r hrr
    unfold tfs_open
    rw [if_neg (by simp [hv])]
    simp only [hr, hlk, hino]
    rw [if_pos hsym, if_neg htgt]
    exact hrr
  · intro st' hfind hroot'
    obtain ⟨rootIno', hr'⟩ := Option.isSome_iff_exists.mp hroot'
    have hlk' : tfs_lookup st' "/s" = none := by
      unfold tfs_lookup
      rw [if_pos (by decide)]
      show findInDir st'.dirEntries ("/s".drop 1) = none
      exact hfind
    constructor
    · unfold tfs_sym_link
      rw [if_neg (by decide)]
      simp only [hr', hlk']
    · intro hcreatf
      unfold tfs_open
      rw [if_neg (by decide)]
      simp only [hr', hlk', hcreatf, if_false, Bool.false_eq_true]

end TFS

namespace TFS

/-- C7, counterexample to the claim as stated: after `sym_link("/s","/s")`
(which returns −1 and changes nothing, because the target `/s` does not
resolve), `tfs_open("/s", CREAT)` does *not* return −1 — it creates an
ordinary file and returns handle 0. -/
theorem c7_open_after_self_symlink_creat :
    (tfs_sym_link st8 "/s" "/s").1 = none ∧
      (tfs_sym_link st8 "/s" "/s").2 = st8 ∧
      (tfs_open 1 st8 "/s" ⟨true, false, false⟩).1 = some 0 := by
  decide

end TFS

namespace TFS

/-- C1, counterexample to the claim as stated: in the reachable state `s2a`
(2-block configuration, both blocks in use, no entry named `f`),
`tfs_open("/f", CREAT|TRUNC)` *succeeds*, but the subsequent
`tfs_write` of the one-byte sequence `[42]` fails (block pool exhausted), so
re-opening and reading yields 0 bytes, not `[42]`. -/
theorem c1_roundtrip_counterexample :
    findInDir s2a.dirEntries "f" = none ∧
      [42].length ≤ s2a.params.blockSize ∧
      s2open.1 = some 1 ∧
      s2open2.1 = some 1 ∧
      s2rd.1 = some [] ∧
      s2rd.1 ≠ some [42] := by
  decide

/-- C2, counterexample to the claim as stated: handle 0 of `st8b` is valid
with offset 4 ≤ block size 8, but `tfs_write` with the `size_t` count
`n = 2^64 − 1` wraps the `to_write + offset > block_size` comparison, so the
call "writes" and returns `2^64 − 1` instead of
`min(n, block_size − offset) = 4`. -/
theorem c2_write_count_counterexample :
    (get_open_file_entry st8b 0).map OpenFileEntry.offset = some 4 ∧
      4 ≤ st8b.params.blockSize ∧
      (inode_get st8b 1).isSome ∧
      (tfs_write st8b 0 [9] (2 ^ 64 - 1)).1 = some (2 ^ 64 - 1) ∧
      2 ^ 64 - 1 ≠ min (2 ^ 64 - 1) (st8b.params.blockSize - 4) := by
  decide

/-- C3, the code bug at the failing input: in the reachable state `st8d`
(handle 0 has offset 4 while a `TRUNC` re-open and re-write left the inode's
size at 1), the C `size_t` subtraction `i_size - of_offset` wraps, so
`tfs_read` of up to 3 bytes returns count 3 (bytes past the end of file)
instead of `min(3, size − offset) = 0`, and advances the offset to 7. -/
theorem c3_read_wraparound_bug :
    (inode_get st8d 1).map Inode.size = some 1 ∧
      (get_open_file_entry st8d 0).map OpenFileEntry.offset = some 4 ∧
      (tfs_read st8d 0 3).1.map List.length = some 3 ∧
      min 3 (1 - 4 : Nat) = 0 ∧
      (get_open_file_entry (tfs_read st8d 0 3).2 0).map OpenFileEntry.offset
        = some 7 := by
  decide

/-- C4, the code bug at the failing input: from a fresh state, `open("/x",
CREAT)` (handle 0) followed by `tfs_unlink("/x")` deletes the inode while
the open-file entry still references it — the spec's open-file invariant is
violated, and the next `tfs_read` on handle 0 hits the state the C code can
only abort on (`ALWAYS_ASSERT "inode of open file deleted"`). -/
theorem c4_unlink_leaves_dangling_handle :
    (tfs_unlink st8a "/x").1 = some () ∧
      get_open_file_entry st8u 0 = some ⟨1, 0⟩ ∧
      inode_get st8u 1 = none ∧
      ¬ OpenInv st8u ∧
      (tfs_read st8u 0 1).1 = none := by
  refine ⟨by decide, by decide, by decide, ?_, by decide⟩
  intro h
  have := h 0 ⟨1, 0⟩ (by decide)
  rw [show inode_get st8u 1 = none by decide] at this
  simp at this

end TFS

namespace TFS

/-- Witness for C6: the hypotheses of `c6_open_create_error_paths` hold in
the fresh state `st8` for the path `/y` with mode CREAT. -/
theorem c6_witness :
    (addEntryFails st8.dirEntries ("/y".drop 1) →
      tfs_open (0 + 1) st8 "/y" ⟨true, false, false⟩ = (none, st8)) ∧
    (∀ st2, add_dir_entry c6st1 ("/y".drop 1) 1 = some st2 →
      firstFree st8.openFiles = none →
      tfs_open (0 + 1) st8 "/y" ⟨true, false, false⟩ = (none, st2) ∧
        find_in_dir st2 ("/y".drop 1) = some 1) :=
  c6_open_create_error_paths st8 c6st1 "/y" ⟨true, false, false⟩ 1 0
    (by decide) (by decide) (by decide) rfl (by decide)

/-- Witness for C7: the hypotheses of `c7_symlink_self_loop` hold in `c7st`,
where `/s` resolves to the SYMLINK inode 2 with target `/t`. -/
theorem c7_witness :
    ("/t" = "/s" →
      tfs_open (0 + 1) c7st "/s" ⟨false, false, false⟩ = (none, c7st)) ∧
    ("/t" ≠ "/s" →
      tfs_open (0 + 1) c7st "/s" ⟨false, false, false⟩
        = tfs_open 0 c7st "/t" ⟨false, false, false⟩) ∧
    (∀ st' : FsState, findInDir st'.dirEntries "s" = none →
      (inode_get st' ROOT_DIR_INUM).isSome →
      tfs_sym_link st' "/s" "/s" = (none, st') ∧
        ((⟨false, false, false⟩ : TfsMode).creat = false →
          (tfs_open (0 + 1) st' "/s" ⟨false, false, false⟩).1 = none)) :=
  c7_symlink_self_loop c7st "/s" ⟨false, false, false⟩ 0 2
    ⟨InodeType.TSymLink, 0, 0, 1, "/t"⟩ (by decide) (by decide) (by decide) rfl

/-- Witness for C8: the hypotheses of `c8_link_spec` hold in `s2a`, where
`/a` resolves to the FILE inode 1 (size 1, link count 1). -/
theorem c8_witness :
    (InodeType.TFile = InodeType.TSymLink →
      tfs_link s2a "/a" "/b" = (none, s2a)) ∧
    (addEntryFails s2a.dirEntries ("/b".drop 1) →
      tfs_link s2a "/a" "/b" = (none, s2a)) ∧
    (∀ st1, InodeType.TFile ≠ InodeType.TSymLink →
      add_dir_entry s2a ("/b".drop 1) 1 = some st1 →
      (tfs_link s2a "/a" "/b").1 = some () ∧
      tfs_lookup (tfs_link s2a "/a" "/b").2 "/b" = some 1 ∧
      inode_get (tfs_link s2a "/a" "/b").2 1
        = some ⟨InodeType.TFile, 1, 1, 2, ""⟩) :=
  c8_link_spec s2a "/a" "/b" 1 ⟨InodeType.TFile, 1, 1, 1, ""⟩
    (by decide) (by decide) (by decide) (by decide) (by decide)

/-- Witness for C10: the hypotheses of `c10_symlink_inode_leak` hold in
`s2a` for `sym_link("/a","/a")` — the target resolves, the SYMLINK inode 2
is created, and the entry-add fails on the duplicate name `a`. -/
theorem c10_witness :
    (tfs_sym_link s2a "/a" "/a").1 = none ∧
      (tfs_sym_link s2a "/a" "/a").2.dirEntries = s2a.dirEntries ∧
      inode_get (tfs_sym_link s2a "/a" "/a").2 2
        = some ⟨InodeType.TSymLink, 0, 0, 1, "/a"⟩ :=
  c10_symlink_inode_leak s2a c10st1 "/a" "/a" 2 1 (by decide) (by decide)
    (by decide) (by decide) (by decide) (Or.inr (Or.inl (by decide)))

end TFS

namespace TFS

theorem data_block_alloc_some (st : FsState) (b : Nat) (st1 : FsState)
    (h : data_block_alloc st = some (b, st1)) :
    firstFree st.blocks = some b ∧
      st1 = { st with blocks :=
        (st.blocks.set b (some (List.replicate st.params.blockSize 0))) } := by
  unfold data_block_alloc at h
  cases hf : firstFree st.blocks with
  | none => rw [hf] at h; simp at h
  | some j =>
      rw [hf] at h
      simp only [Option.some.injEq, Prod.mk.injEq] at h
      obtain ⟨rfl, h2⟩ := h
      exact ⟨rfl, h2.symm⟩

theorem open_file_entry_get (st : FsState) (fh : Nat) (e : OpenFileEntry)
    (h : get_open_file_entry st fh = some e) :
    st.openFiles.get? fh = some (some e) ∧ fh < st.openFiles.length := by
  unfold get_open_file_entry at h
  cases hq : st.openFiles.get? fh with
  | none => rw [hq] at h; simp at h
  | some o =>
      rw [hq] at h
      cases o with
      | none => simp at h
      | some e' =>
          simp at h
          subst h
          exact ⟨rfl, (List.get?_eq_some.mp hq).1⟩

/-- C2 (amended): for a valid handle whose offset is at most `block_size`
and a size-compatible count (`n + offset < 2^64`, the amendment forced by
the `size_t` wrap counterexample), `tfs_write` writes and returns exactly
`min(n, block_size − offset)` bytes — advancing the offset by that amount —
and, when that count is positive and the inode's size is 0, it first
allocates a data block, returning −1 with the state unchanged (no bytes
written) when the allocation fails. -/
theorem c2_write_cap_spec (st : FsState) (fh : Nat) (e : OpenFileEntry)
    (ino : Inode) (buf : List Nat) (n : Nat)
    (hentry : get_open_file_entry st fh = some e)
    (hino : inode_get st e.inumber = some ino)
    (hoff : e.offset ≤ st.params.blockSize)
    (hn : n + e.offset < W)
    (hblk : ino.size = 0 ∨ (data_block_get st ino.dataBlock).isSome) :
    (min n (st.params.blockSize - e.offset) > 0 → ino.size = 0 →
      data_block_alloc st = none →
      tfs_write st fh buf n = (none, st)) ∧
    ((ino.size = 0 → min n (st.params.blockSize - e.offset) > 0 →
        (data_block_alloc st).isSome) →
      (tfs_write st fh buf n).1
          = some (min n (st.params.blockSize - e.offset)) ∧
        (min n (st.params.blockSize - e.offset) > 0 →
          (get_open_file_entry (tfs_write st fh buf n).2 fh).map
              OpenFileEntry.offset
            = some (e.offset + min n (st.params.blockSize - e.offset)))) := by
  have hmod : (n + e.offset) % W = n + e.offset := Nat.mod_eq_of_lt hn
  have htw : (if (n + e.offset) % W > state_block_size st then
      (state_block_size st + W - e.offset) % W else n)
      = min n (st.params.blockSize - e.offset) := by
    unfold state_block_size
    rw [hmod]
    by_cases hc : n + e.offset > st.params.blockSize
    · rw [if_pos hc]
      rw [show st.params.blockSize + W - e.offset
        = W + (st.params.blockSize - e.offset) by omega]
      rw [Nat.add_mod_left, Nat.mod_eq_of_lt (by omega)]
      omega
    · rw [if_neg hc]
      omega
  set w := min n (st.params.blockSize - e.offset) with hwdef
  have hwn : w ≤ n := Nat.min_le_left _ _
  have hofflt : fh < st.openFiles.length := (open_file_entry_get st fh e hentry).2
  by_cases hwpos : w > 0
  · constructor
    · intro _ hsize halloc
      unfold tfs_write
      simp only [hentry, hino]
      rw [htw, if_pos hwpos, if_pos hsize, halloc]
    · intro hag
      have hmod2 : (e.offset + w) % W = e.offset + w :=
        Nat.mod_eq_of_lt (by omega)
      by_cases hsize : ino.size = 0
      · obtain ⟨pr, halloc⟩ :=
          Option.isSome_iff_exists.mp (hag hsize hwpos)
        obtain ⟨b, st1⟩ := pr
        obtain ⟨hfb, hst1⟩ := data_block_alloc_some st b st1 halloc
        have hblt : b < st.blocks.length := firstFree_lt _ _ hfb
        have hbget : data_block_get st1 b
            = some (List.replicate st.params.blockSize 0) := by
          rw [hst1]
          show ((st.blocks.set b _).get? b).join = _
          rw [get?_set_self _ _ _ hblt]
          rfl
        have hrun : tfs_write st fh buf n = (some w,
            set_open_file
              (set_inode
                { st1 with blocks :=
                  (st1.blocks.set b
                    (some ((List.replicate st.params.blockSize 0).take e.offset
                      ++ buf.take w
                      ++ (List.replicate st.params.blockSize 0).drop
                        (e.offset + w)))) }
                e.inumber
                (if (e.offset + w) % W > ino.size
                  then { ino with dataBlock := b, size := (e.offset + w) % W }
                  else { ino with dataBlock := b }))
              fh { e with offset := (e.offset + w) % W }) := by
          unfold tfs_write
          simp only [hentry, hino]
          rw [htw, if_pos hwpos, if_pos hsize, halloc]
          simp only [hbget, hsize, if_pos]
        rw [hrun]
        refine ⟨rfl, fun _ => ?_⟩
        show ((List.set _ fh (some { e with offset := (e.offset + w) % W })).get?
          fh).join.map OpenFileEntry.offset = _
        rw [get?_set_self _ _ _ (by simpa [hst1] using hofflt)]
        simp [hmod2]
      · obtain ⟨block, hb⟩ := Option.isSome_iff_exists.mp
          (hblk.resolve_left hsize)
        have hrun : tfs_write st fh buf n = (some w,
            set_open_file
              (set_inode
                { st with blocks :=
                  (st.blocks.set ino.dataBlock
                    (some (block.take e.offset ++ buf.take w
                      ++ block.drop (e.offset + w)))) }
                e.inumber
                (if (e.offset + w) % W > ino.size
                  then { ino with size := (e.offset + w) % W }
                  else ino))
              fh { e with offset := (e.offset + w) % W }) := by
          unfold tfs_write
          simp only [hentry, hino]
          rw [htw, if_pos hwpos, if_neg hsize]
          simp only [hb, hsize, if_neg, if_false]
        rw [hrun]
        refine ⟨rfl, fun _ => ?_⟩
        show ((List.set _ fh (some { e with offset := (e.offset + w) % W })).get?
          fh).join.map OpenFileEntry.offset = _
        rw [get?_set_self _ _ _ (by simpa using hofflt)]
        simp [hmod2]
  · have hrun : tfs_write st fh buf n = (some w, st) := by
      unfold tfs_write
      simp only [hentry, hino]
      rw [htw, if_neg hwpos]
    exact ⟨fun h => absurd h hwpos, fun _ => ⟨by rw [hrun],
      fun h => absurd h hwpos⟩⟩

end TFS

namespace TFS

/-- Witness for C2: the hypotheses of `c2_write_cap_spec` hold for handle 0
of `st8b` (inode 1, size 4, offset 4, block size 8) with `n = 2`. -/
theorem c2_witness :
    (min 2 (st8b.params.blockSize - 4) > 0 → (4 : Nat) = 0 →
      data_block_alloc st8b = none →
      tfs_write st8b 0 [9] 2 = (none, st8b)) ∧
    (((4 : Nat) = 0 → min 2 (st8b.params.blockSize - 4) > 0 →
        (data_block_alloc st8b).isSome) →
      (tfs_write st8b 0 [9] 2).1 = some (min 2 (st8b.params.blockSize - 4)) ∧
        (min 2 (st8b.params.blockSize - 4) > 0 →
          (get_open_file_entry (tfs_write st8b 0 [9] 2).2 0).map
              OpenFileEntry.offset
            = some (4 + min 2 (st8b.params.blockSize - 4)))) :=
  c2_write_cap_spec st8b 0 ⟨1, 4⟩ ⟨InodeType.TFile, 4, 1, 1, ""⟩ [9] 2
    (by decide) (by decide) (by decide) (by decide) (Or.inr (by decide))

end TFS

/-! ## The inductive invariant: symlink link counts and directory-name
uniqueness are maintained by every facade operation -/

namespace TFS

theorem inode_get_eq_some (st : FsState) (i : Nat) (ino : Inode) :
    inode_get st i = some ino ↔ st.inodes.get? i = some (some ino) := by
  unfold inode_get
  cases hq : st.inodes.get? i with
  | none => simp
  | some o => cases o <;> simp

theorem inv_congr (st st' : FsState) (h : Inv st)
    (hi : st'.inodes = st.inodes) (hd : st'.dirEntries = st.dirEntries) :
    Inv st' := by
  refine ⟨fun j o hj hsym => h.1 j o (by rw [← hi]; exact hj) hsym, fun m => ?_⟩
  show entriesNamed st'.dirEntries m ≤ 1
  rw [hd]
  exact h.2 m

theorem symInv_set (st : FsState) (i : Nat) (x : Option Inode)
    (h : SymInv st)
    (hx : ∀ ino, x = some ino →
      ino.nodeType = InodeType.TSymLink → ino.links = 1) :
    SymInv { st with inodes := (st.inodes.set i x) } := by
  intro j o hj hsym
  by_cases hij : i = j
  · subst hij
    rw [List.get?_set_eq] at hj
    cases hq : st.inodes.get? i with
    | none => rw [hq] at hj; simp at hj
    | some z =>
        rw [hq] at hj
        simp at hj
        exact hx o hj hsym
  · rw [List.get?_set_ne _ _ hij] at hj
    exact h j o hj hsym

theorem uniqInv_add (l : List (Option DirEntry)) (k : Nat) (n : String)
    (i : Nat) (hu : ∀ m, entriesNamed l m ≤ 1)
    (hfind : findInDir l n = none) (hfree : l.get? k = some none) :
    ∀ m, entriesNamed (l.set k (some ⟨n, i⟩)) m ≤ 1 := by
  intro m
  rw [entriesNamed_set_free l k _ m hfree]
  by_cases hnm : n = m
  · subst hnm
    have h0 : entriesNamed l n = 0 := zero_of_findInDir_none l n hfind
    simp [namedP, h0]
  · have : namedP m (some ⟨n, i⟩) = false := by
      simp [namedP, hnm]
    rw [this]
    simpa using hu m

/-- A successful `add_dir_entry` preserves the invariant (and touches only
the entry array). -/
theorem inv_add_dir_entry (st st1 : FsState) (n : String) (i : Nat)
    (h : Inv st) (hadd : add_dir_entry st n i = some st1) : Inv st1 := by
  obtain ⟨k, hk, hnone, hst1⟩ := add_dir_entry_some _ _ _ _ hadd
  subst hst1
  exact ⟨h.1, uniqInv_add _ _ _ _ h.2 hnone (firstFree_get _ _ hk)⟩

theorem replicate_none_get {α : Type _} (n j : Nat) (x : Option α)
    (h : (List.replicate n (none : Option α)).get? j = some x) : x = none := by
  rcases List.get?_eq_some.mp h with ⟨hlt, hget⟩
  rw [List.get_replicate] at hget
  exact hget.symm

theorem inv_state_init (p : TfsParams) : Inv (state_init p) := by
  constructor
  · intro j o hj hsym
    have h' : (List.replicate p.maxInodeCount (none : Option Inode)).get? j
        = some (some o) := hj
    exact absurd (replicate_none_get _ _ _ h') (by simp)
  · intro m
    show entriesNamed (List.replicate p.maxInodeCount none) m ≤ 1
    rw [entriesNamed_replicate]
    omega

end TFS

namespace TFS

theorem symInv_inodes (st st' : FsState) (h : SymInv st)
    (he : st'.inodes = st.inodes) : SymInv st' := by
  intro j o hj hsym
  exact h j o (by rw [← he]; exact hj) hsym

theorem uniqInv_entries (st st' : FsState) (h : UniqInv st)
    (he : st'.dirEntries = st.dirEntries) : UniqInv st' := by
  intro m
  show entriesNamed st'.dirEntries m ≤ 1
  rw [he]
  exact h m

theorem symInv_set_list (st : FsState) (h : SymInv st) (i : Nat)
    (x : Option Inode)
    (hx : ∀ ino, x = some ino →
      ino.nodeType = InodeType.TSymLink → ino.links = 1)
    (st' : FsState) (he : st'.inodes = st.inodes.set i x) : SymInv st' :=
  symInv_inodes _ _ (symInv_set st i x h hx) he

theorem inv_tfs_close (st : FsState) (fh : Nat) (h : Inv st) :
    Inv (tfs_close st fh).2 := by
  unfold tfs_close
  cases hq : get_open_file_entry st fh with
  | none => exact h
  | some e => exact inv_congr st _ h rfl rfl

theorem inv_tfs_read (st : FsState) (fh len : Nat) (h : Inv st) :
    Inv (tfs_read st fh len).2 := by
  unfold tfs_read
  cases hq : get_open_file_entry st fh with
  | none => exact h
  | some file =>
    dsimp only
    cases hi : inode_get st file.inumber with
    | none => exact h
    | some inode =>
      dsimp only
      set r := (if (inode.size + W - file.offset) % W > len then len
        else (inode.size + W - file.offset) % W) with hrdef
      split
      · split
        · exact h
        · exact inv_congr st _ h rfl rfl
      · exact h

theorem inv_tfs_write (st : FsState) (fh : Nat) (buf : List Nat) (n : Nat)
    (h : Inv st) : Inv (tfs_write st fh buf n).2 := by
  unfold tfs_write
  cases hq : get_open_file_entry st fh with
  | none => exact h
  | some file =>
    dsimp only
    cases hi : inode_get st file.inumber with
    | none => exact h
    | some inode =>
      dsimp only
      set w := (if (n + file.offset) % W > state_block_size st
        then (state_block_size st + W - file.offset) % W else n) with hw
      split
      · split
        · exact h
        · rename_i bnum st1 halloc
          have hst1 : st1.inodes = st.inodes ∧ st1.dirEntries = st.dirEntries := by
            by_cases hs : inode.size = 0
            · rw [if_pos hs] at halloc
              obtain ⟨-, h2⟩ := data_block_alloc_some st _ _ halloc
              rw [h2]
              exact ⟨rfl, rfl⟩
            · rw [if_neg hs] at halloc
              simp only [Option.some.injEq, Prod.mk.injEq] at halloc
              rw [← halloc.2]
              exact ⟨rfl, rfl⟩
          have hInv1 : Inv st1 := inv_congr st st1 h hst1.1 hst1.2
          split
          · exact hInv1
          · rename_i block hbl
            constructor
            · refine symInv_set_list st1 hInv1.1 file.inumber _ ?_ _ rfl
              intro ino hino hsym
              have hlinks : ino.links = inode.links ∧
                  ino.nodeType = inode.nodeType := by
                simp only [Option.some.injEq] at hino
                subst hino
                constructor <;> (split <;> (try split) <;> rfl)
              have hbase := h.1 file.inumber inode
                ((inode_get_eq_some st _ _).mp hi) (by rw [← hlinks.2]; exact hsym)
              rw [hlinks.1, hbase]
            · exact uniqInv_entries st1 _ hInv1.2 rfl
      · exact h

theorem inv_tfs_link (st : FsState) (t l : String) (h : Inv st) :
    Inv (tfs_link st t l).2 := by
  unfold tfs_link
  split
  · exact h
  · cases hr : inode_get st ROOT_DIR_INUM with
    | none => exact h
    | some rootIno =>
      dsimp only
      cases hlk : tfs_lookup st t with
      | none => exact h
      | some tnum =>
        dsimp only
        cases hi : inode_get st tnum with
        | none => exact h
        | some itarget =>
          dsimp only
          by_cases hsym : itarget.nodeType = InodeType.TSymLink
          · rw [if_pos hsym]
            exact h
          · rw [if_neg hsym]
            cases hadd : add_dir_entry st (l.drop 1) tnum with
            | none => exact h
            | some st1 =>
              have hInv1 : Inv st1 := inv_add_dir_entry st st1 _ _ h hadd
              obtain ⟨k, hk, hnone, hst1⟩ := add_dir_entry_some _ _ _ _ hadd
              constructor
              · refine symInv_set_list st1 hInv1.1 tnum _ ?_ _ rfl
                intro ino hino hs
                simp only [Option.some.injEq] at hino
                subst hino
                exact absurd hs hsym
              · exact uniqInv_entries st1 _ hInv1.2 rfl

theorem inv_tfs_sym_link (st : FsState) (t l : String) (h : Inv st) :
    Inv (tfs_sym_link st t l).2 := by
  unfold tfs_sym_link
  split
  · exact h
  · cases hr : inode_get st ROOT_DIR_INUM with
    | none => exact h
    | some rootIno =>
      dsimp only
      cases hlk : tfs_lookup st t with
      | none => exact h
      | some tnum =>
        dsimp only
        cases hc : inode_create st InodeType.TSymLink with
        | none => exact h
        | some pr =>
          obtain ⟨iLinkNum, st1⟩ := pr
          dsimp only
          obtain ⟨hff, hst1⟩ := inode_create_nondir st _ (by decide) _ _ hc
          have hInv1 : Inv st1 := by
            constructor
            · refine symInv_set_list st h.1 iLinkNum _ ?_ _ (by rw [hst1])
              intro ino hino _
              simp only [Option.some.injEq] at hino
              subst hino
              rfl
            · exact uniqInv_entries st _ h.2 (by rw [hst1])
          cases hg : inode_get st1 iLinkNum with
          | none => exact hInv1
          | some iLink =>
            dsimp only
            have hlinks : iLink.links = 1 := by
              rw [hst1] at hg
              have hlt : iLinkNum < st.inodes.length := firstFree_lt _ _ hff
              have : ((st.inodes.set iLinkNum
                  (some ⟨InodeType.TSymLink, 0, 0, 1, ""⟩)).get? iLinkNum).join
                  = some iLink := hg
              rw [get?_set_self _ _ _ hlt] at this
              simp at this
              rw [← this]
            have hInv2 : Inv (set_inode st1 iLinkNum
                { iLink with targetName := t }) := by
              constructor
              · refine symInv_set_list st1 hInv1.1 iLinkNum _ ?_ _ rfl
                intro ino hino _
                simp only [Option.some.injEq] at hino
                subst hino
                exact hlinks
              · exact uniqInv_entries st1 _ hInv1.2 rfl
            cases hadd : add_dir_entry (set_inode st1 iLinkNum
                { iLink with targetName := t }) (l.drop 1) iLinkNum with
            | none => exact hInv2
            | some st3 => exact inv_add_dir_entry _ st3 _ _ hInv2 hadd

theorem inv_clear_dir_entry (st : FsState) (n : String) (h : Inv st) :
    Inv (clear_dir_entry st n) := by
  constructor
  · exact symInv_inodes st _ h.1 rfl
  · intro m
    show entriesNamed (clearFirst st.dirEntries n) m ≤ 1
    exact Nat.le_trans (entriesNamed_clearFirst_le _ _ _) (h.2 m)

theorem inv_tfs_unlink (st : FsState) (t : String) (h : Inv st) :
    Inv (tfs_unlink st t).2 := by
  unfold tfs_unlink
  split
  · exact h
  · cases hr : inode_get st ROOT_DIR_INUM with
    | none => exact h
    | some rootIno =>
      dsimp only
      cases hlk : tfs_lookup st t with
      | none => exact h
      | some tnum =>
        dsimp only
        cases hi : inode_get st tnum with
        | none => exact h
        | some iTarget =>
          dsimp only
          refine inv_clear_dir_entry _ _ ?_
          split
          · -- inode_delete
            unfold inode_delete
            rw [hi]
            dsimp only
            constructor
            · refine symInv_set_list _ ?_ tnum none (by intro _ hc _; cases hc) _ rfl
              split
              · exact symInv_inodes st _ h.1 rfl
              · exact h.1
            · refine uniqInv_entries st _ h.2 ?_
              split <;> rfl
          · -- decrement
            constructor
            · refine symInv_set_list st h.1 tnum _ ?_ _ rfl
              intro ino hino hsym
              simp only [Option.some.injEq] at hino
              subst hino
              have := h.1 tnum iTarget ((inode_get_eq_some st _ _).mp hi) hsym
              rename_i hcond
              omega
            · exact uniqInv_entries st _ h.2 rfl

theorem inv_tfs_open (fuel : Nat) : ∀ (st : FsState) (name : String)
    (mode : TfsMode), Inv st → Inv (tfs_open fuel st name mode).2 := by
  induction fuel with
  | zero => intro st name mode h; exact h
  | succ fuel ih =>
    intro st name mode h
    unfold tfs_open
    split
    · exact h
    · cases hr : inode_get st ROOT_DIR_INUM with
      | none => exact h
      | some rootIno =>
        dsimp only
        cases hlk : tfs_lookup st name with
        | some inum =>
          dsimp only
          cases hi : inode_get st inum with
          | none => exact h
          | some inode =>
            dsimp only
            by_cases hsym : inode.nodeType = InodeType.TSymLink
            · rw [if_pos hsym]
              by_cases htgt : inode.targetName = name
              · rw [if_pos htgt]
                exact h
              · rw [if_neg htgt]
                exact ih st inode.targetName mode h
            · rw [if_neg hsym]
              have hInv1 : Inv (if mode.trunc = true ∧ inode.size > 0 then
                  set_inode (data_block_free st inode.dataBlock) inum
                    { inode with size := 0 }
                  else st) := by
                split
                · constructor
                  · refine symInv_set_list st h.1 inum _ ?_ _ rfl
                    intro ino hino hs
                    simp only [Option.some.injEq] at hino
                    subst hino
                    exact h.1 inum inode ((inode_get_eq_some st _ _).mp hi) hs
                  · exact uniqInv_entries st _ h.2 rfl
                · exact h
              unfold add_to_open_file_table
              split
              · exact hInv1
              · exact inv_congr _ _ hInv1 rfl rfl
        | none =>
          dsimp only
          by_cases hcr : mode.creat = true
          · rw [if_pos hcr]
            cases hc : inode_create st InodeType.TFile with
            | none => exact h
            | some pr =>
              obtain ⟨inum, st1⟩ := pr
              dsimp only
              obtain ⟨hff, hst1⟩ := inode_create_nondir st _ (by decide) _ _ hc
              have hInv1 : Inv st1 := by
                constructor
                · refine symInv_set_list st h.1 inum _ ?_ _ (by rw [hst1])
                  intro ino hino _
                  simp only [Option.some.injEq] at hino
                  subst hino
                  rfl
                · exact uniqInv_entries st _ h.2 (by rw [hst1])
              cases hadd : add_dir_entry st1 (name.drop 1) inum with
              | none =>
                unfold inode_delete
                cases hg : inode_get st1 inum with
                | none => exact hInv1
                | some ino1 =>
                  dsimp only
                  constructor
                  · refine symInv_set_list _ ?_ inum none
                      (by intro _ hc2 _; cases hc2) _ rfl
                    split
                    · exact symInv_inodes st1 _ hInv1.1 rfl
                    · exact hInv1.1
                  · refine uniqInv_entries st1 _ hInv1.2 ?_
                    split <;> rfl
              | some st2 =>
                dsimp only
                have hInv2 : Inv st2 := inv_add_dir_entry st1 st2 _ _ hInv1 hadd
                unfold add_to_open_file_table
                split
                · exact hInv2
                · exact inv_congr _ _ hInv2 rfl rfl
          · rw [if_neg hcr]
            exact h

theorem inv_tfs_init (p : TfsParams) (st : FsState)
    (h : tfs_init p = some st) : Inv st := by
  unfold tfs_init at h
  dsimp only at h
  cases hc : inode_create (state_init p) InodeType.TDirectory with
  | none => rw [hc] at h; simp at h
  | some pr =>
    obtain ⟨root, st1⟩ := pr
    rw [hc] at h
    dsimp only at h
    by_cases hroot : root = ROOT_DIR_INUM
    · rw [if_pos hroot] at h
      simp only [Option.some.injEq] at h
      subst h
      unfold inode_create at hc
      cases hf : firstFree (state_init p).inodes with
      | none => rw [hf] at hc; simp at hc
      | some j =>
        rw [hf] at hc
        cases hg : firstFree (state_init p).blocks with
        | none => rw [hg] at hc; simp at hc
        | some b =>
          rw [hg] at hc
          simp only [Option.some.injEq, Prod.mk.injEq] at hc
          obtain ⟨-, hst1⟩ := hc
          constructor
          · refine symInv_set_list (state_init p) (inv_state_init p).1 j _ ?_ _
              (by rw [← hst1])
            intro ino hino _
            simp only [Option.some.injEq] at hino
            subst hino
            rfl
          · intro m
            show entriesNamed st1.dirEntries m ≤ 1
            rw [← hst1]
            show entriesNamed (List.replicate p.maxInodeCount none) m ≤ 1
            rw [entriesNamed_replicate]
            omega
    · rw [if_neg hroot] at h
      simp at h

/-- Every reachable state satisfies the inductive invariant: symlink inodes
have link count 1, and directory names are unique. -/
theorem reachable_inv (st : FsState) (h : Reachable st) : Inv st := by
  induction h with
  | init p st hp => exact inv_tfs_init p st hp
  | step hr hs ih =>
    cases hs with
    | opn fuel name mode => exact inv_tfs_open fuel _ name mode ih
    | close fh => exact inv_tfs_close _ fh ih
    | read fh len => exact inv_tfs_read _ fh len ih
    | write fh buf n => exact inv_tfs_write _ fh buf n ih
    | link t l => exact inv_tfs_link _ t l ih
    | symLink t l => exact inv_tfs_sym_link _ t l ih
    | unlink t => exact inv_tfs_unlink _ t ih

end TFS

namespace TFS

/-- C5: in every reachable state (where the root inode exists, as the C code
asserts), for a valid path resolving to inode `inum` holding `ino`:
if `link_count` is 1 — and in particular for every SYMLINK inode, whose
link count is 1 by construction in every reachable state — `tfs_unlink`
deletes the inode, clears the directory entry (the path no longer resolves)
and returns 0; if `link_count > 1` it only decrements the count, clears the
entry, and returns 0; and it returns −1 when the path is invalid or
absent. -/
theorem c5_unlink_spec (st : FsState) (path : String) (inum : Nat)
    (ino : Inode) (hreach : Reachable st)
    (hroot : (inode_get st ROOT_DIR_INUM).isSome)
    (hlk : tfs_lookup st path = some inum)
    (hino : inode_get st inum = some ino) :
    ((ino.links = 1 ∨ ino.nodeType = InodeType.TSymLink) →
      (tfs_unlink st path).1 = some () ∧
      inode_get (tfs_unlink st path).2 inum = none ∧
      tfs_lookup (tfs_unlink st path).2 path = none) ∧
    (1 < ino.links →
      (tfs_unlink st path).1 = some () ∧
      inode_get (tfs_unlink st path).2 inum
        = some { ino with links := ino.links - 1 } ∧
      tfs_lookup (tfs_unlink st path).2 path = none) ∧
    (∀ q : String, (¬ valid_pathname q ∨ tfs_lookup st q = none) →
      tfs_unlink st q = (none, st)) := by
  have hInv : Inv st := reachable_inv st hreach
  have hv : valid_pathname path = true := by
    unfold tfs_lookup at hlk
    by_cases hv : valid_pathname path
    · exact hv
    · rw [if_neg hv] at hlk
      simp at hlk
  obtain ⟨rootIno, hr⟩ := Option.isSome_iff_exists.mp hroot
  have hlt : inum < st.inodes.length := by
    have := (inode_get_eq_some st inum ino).mp hino
    exact (List.get?_eq_some.mp this).1
  have hfindclear : findInDir (clearFirst st.dirEntries (path.drop 1))
      (path.drop 1) = none := by
    refine findInDir_clearFirst _ _ ?_
    exact hInv.2 (path.drop 1)
  refine ⟨?_, ?_, ?_⟩
  · intro hdel
    have hl1 : ino.links = 1 := by
      rcases hdel with hl | hs
      · exact hl
      · exact hInv.1 inum ino ((inode_get_eq_some st inum ino).mp hino) hs
    have hcond : ino.links - 1 = 0 := by omega
    have hrun : tfs_unlink st path =
        (some (), clear_dir_entry (inode_delete st inum) (path.drop 1)) := by
      unfold tfs_unlink
      rw [if_neg (by simp [hv])]
      simp only [hr, hlk, hino]
      rw [if_pos hcond]
    rw [hrun]
    refine ⟨rfl, ?_, ?_⟩
    · show ((inode_delete st inum).inodes.get? inum).join = none
      unfold inode_delete
      rw [hino]
      dsimp only
      show (((if (ino.nodeType = InodeType.TFile ∧ ino.size > 0)
          ∨ ino.nodeType = InodeType.TDirectory then
            data_block_free st ino.dataBlock else st).inodes.set inum
          none).get? inum).join = none
      have hlt2 : inum < (if (ino.nodeType = InodeType.TFile ∧ ino.size > 0)
          ∨ ino.nodeType = InodeType.TDirectory then
            data_block_free st ino.dataBlock else st).inodes.length := by
        split <;> simpa using hlt
      rw [get?_set_self _ _ _ hlt2]
      rfl
    · unfold tfs_lookup
      rw [if_pos hv]
      show findInDir (clearFirst (inode_delete st inum).dirEntries
        (path.drop 1)) (path.drop 1) = none
      have hd : (inode_delete st inum).dirEntries = st.dirEntries := by
        unfold inode_delete
        rw [hino]
        dsimp only
        split <;> rfl
      rw [hd]
      exact hfindclear
  · intro hgt
    have hcond : ¬ (ino.links - 1 = 0) := by omega
    have hrun : tfs_unlink st path =
        (some (), clear_dir_entry
          (set_inode st inum { ino with links := ino.links - 1 })
          (path.drop 1)) := by
      unfold tfs_unlink
      rw [if_neg (by simp [hv])]
      simp only [hr, hlk, hino]
      rw [if_neg hcond]
    rw [hrun]
    refine ⟨rfl, ?_, ?_⟩
    · show ((st.inodes.set inum
        (some { ino with links := ino.links - 1 })).get? inum).join = _
      rw [get?_set_self _ _ _ hlt]
      rfl
    · unfold tfs_lookup
      rw [if_pos hv]
      exact hfindclear
  · intro q hq
    by_cases hvq : valid_pathname q
    · have hlkq : tfs_lookup st q = none := by
        rcases hq with hbad | hnone
        · exact absurd hvq hbad
        · exact hnone
      unfold tfs_unlink
      rw [if_neg (by simp [hvq])]
      simp only [hr, hlkq]
    · unfold tfs_unlink
      rw [if_pos (by simpa using hvq)]

end TFS

namespace TFS

/-- Witness for C5: the hypotheses of `c5_unlink_spec` hold in the
reachable state `st8a` (init, then `open("/x", CREAT)`), where `/x`
resolves to the FILE inode 1 with link count 1. -/
theorem c5_witness :
    ((1 = 1 ∨ InodeType.TFile = InodeType.TSymLink) →
      (tfs_unlink st8a "/x").1 = some () ∧
      inode_get (tfs_unlink st8a "/x").2 1 = none ∧
      tfs_lookup (tfs_unlink st8a "/x").2 "/x" = none) ∧
    (1 < 1 →
      (tfs_unlink st8a "/x").1 = some () ∧
      inode_get (tfs_unlink st8a "/x").2 1
        = some ⟨InodeType.TFile, 0, 0, 0, ""⟩ ∧
      tfs_lookup (tfs_unlink st8a "/x").2 "/x" = none) ∧
    (∀ q : String, (¬ valid_pathname q ∨ tfs_lookup st8a q = none) →
      tfs_unlink st8a q = (none, st8a)) :=
  c5_unlink_spec st8a "/x" 1 ⟨InodeType.TFile, 0, 0, 1, ""⟩
    (Reachable.step (Reachable.init p8 st8 rfl)
      (Step.opn st8 1 "/x" ⟨true, false, false⟩))
    (by decide) (by decide) (by decide)

end TFS


namespace TFS

/-- Tail of the round-trip: re-opening `/f` with mode 0 in a state where the
open-file slot `hh` was just freed, and reading up to `block_size` bytes,
yields exactly `B`. -/
theorem c1_tail (st0 : FsState) (rootIno : Inode) (inum k hh : Nat)
    (ino : Inode) (blks : List (Option (List Nat))) (B : List Nat)
    (hr : st0.inodes.get? ROOT_DIR_INUM = some (some rootIno))
    (hnof : findInDir st0.dirEntries "f" = none)
    (hkfree : st0.dirEntries.get? k = some none)
    (hinumlt : inum < st0.inodes.length)
    (hi0 : inum ≠ 0)
    (hhlt : hh < st0.openFiles.length)
    (htype : ino.nodeType = InodeType.TFile)
    (hsize : ino.size = B.length)
    (hB : B.length ≤ st0.params.blockSize)
    (hW : st0.params.blockSize < W)
    (hblk : B.length > 0 →
      ∃ blk, blks.get? ino.dataBlock = some (some blk) ∧
        blk.take B.length = B) :
    ∃ h2 st4,
      tfs_open 1
        { st0 with
          inodes := st0.inodes.set inum (some ino),
          blocks := blks,
          dirEntries := st0.dirEntries.set k (some ⟨"f", inum⟩),
          openFiles := st0.openFiles.set hh none } "/f"
        ⟨false, false, false⟩ = (some h2, st4) ∧
      (tfs_read st4 h2 st0.params.blockSize).1 = some B := by
  set stF : FsState :=
    { st0 with
      inodes := st0.inodes.set inum (some ino),
      blocks := blks,
      dirEntries := st0.dirEntries.set k (some ⟨"f", inum⟩),
      openFiles := st0.openFiles.set hh none } with hstF
  have hof : stF.openFiles.get? hh = some none := by
    show (st0.openFiles.set hh none).get? hh = some none
    exact get?_set_self _ _ _ hhlt
  obtain ⟨h2, hff2⟩ :=
    Option.isSome_iff_exists.mp (firstFree_isSome_of_free _ _ hof)
  have hroot3 : inode_get stF ROOT_DIR_INUM = some rootIno := by
    show ((st0.inodes.set inum (some ino)).get? 0).join = _
    rw [List.get?_set_ne _ _ hi0]
    rw [show st0.inodes.get? 0 = some (some rootIno) from hr]
    rfl
  have hlk3 : tfs_lookup stF "/f" = some inum := by
    unfold tfs_lookup find_in_dir
    rw [if_pos (by decide)]
    show findInDir (st0.dirEntries.set k (some ⟨"f", inum⟩)) ("/f".drop 1)
      = some inum
    rw [show ("/f".drop 1) = "f" from by decide]
    exact findInDir_set_fresh _ _ _ _ hnof hkfree
  have hino3 : inode_get stF inum = some ino := by
    show ((st0.inodes.set inum (some ino)).get? inum).join = _
    rw [get?_set_self _ _ _ hinumlt]
    rfl
  have hopen2 : tfs_open 1 stF "/f" ⟨false, false, false⟩
      = (some h2,
        { stF with openFiles := stF.openFiles.set h2 (some ⟨inum, 0⟩) }) := by
    unfold tfs_open
    rw [if_neg (by decide)]
    simp only [hroot3, hlk3, hino3]
    rw [if_neg (show ¬ ino.nodeType = InodeType.TSymLink by
      rw [htype]; decide)]
    dsimp only
    rw [if_neg (by simp)]
    unfold add_to_open_file_table
    rw [hff2]
    rfl
  refine ⟨h2, _, hopen2, ?_⟩
  have hent4 : get_open_file_entry
      { stF with openFiles := stF.openFiles.set h2 (some ⟨inum, 0⟩) } h2
      = some ⟨inum, 0⟩ := by
    show ((stF.openFiles.set h2 (some ⟨inum, 0⟩)).get? h2).join = _
    rw [get?_set_self _ _ _ (firstFree_lt _ _ hff2)]
    rfl
  have hino4 : inode_get
      { stF with openFiles := stF.openFiles.set h2 (some ⟨inum, 0⟩) } inum
      = some ino := hino3
  unfold tfs_read
  simp only [hent4, hino4]
  simp only [hsize, Nat.sub_zero, Nat.add_mod_right,
    Nat.mod_eq_of_lt (lt_of_le_of_lt hB hW)]
  rw [if_neg (Nat.not_lt.mpr hB)]
  by_cases hB0 : B.length = 0
  · rw [if_neg (by omega)]
    rw [show B = [] from List.length_eq_zero.mp hB0]
  · rw [if_pos (by omega)]
    obtain ⟨blk, hblkget, htake⟩ := hblk (by omega)
    have hget : data_block_get
        { stF with openFiles := stF.openFiles.set h2 (some ⟨inum, 0⟩) }
        ino.dataBlock = some blk := by
      show (blks.get? ino.dataBlock).join = _
      rw [hblkget]
      rfl
    simp only [hget, List.drop_zero]
    rw [htake]

/-- Closing a valid handle returns 0, and what follows operates on the state
with the open-file slot freed. -/
theorem close_then (st : FsState) (fh : Nat) (e : OpenFileEntry)
    (P : FsState → Prop)
    (hget : get_open_file_entry st fh = some e)
    (hP : P (remove_from_open_file_table st fh)) :
    (tfs_close st fh).1 = some () ∧ P (tfs_close st fh).2 := by
  unfold tfs_close
  simp only [hget]
  exact ⟨trivial, hP⟩

/-- C1 (amended): for any state containing no entry named `f` and any byte
sequence `B` with `length(B) ≤ block_size`: if `tfs_open("/f", CREAT|TRUNC)`
succeeds *and the subsequent `tfs_write` of `B` succeeds* (the amendment
forced by the block-pool-exhaustion counterexample), then `tfs_close`
returns 0, re-opening `/f` with mode 0 succeeds, and `tfs_read` of up to
`block_size` bytes returns exactly the bytes `B`. -/
theorem c1_roundtrip_amended (st0 : FsState) (B : List Nat) (fuel h1 w : Nat)
    (st1 st2 : FsState)
    (hB : B.length ≤ st0.params.blockSize)
    (hW : st0.params.blockSize < W)
    (hnof : findInDir st0.dirEntries "f" = none)
    (hopen : tfs_open fuel st0 "/f" ⟨true, true, false⟩ = (some h1, st1))
    (hwrite : tfs_write st1 h1 B B.length = (some w, st2)) :
    (tfs_close st2 h1).1 = some () ∧
    ∃ h2 st4, tfs_open 1 (tfs_close st2 h1).2 "/f" ⟨false, false, false⟩
        = (some h2, st4) ∧
      (tfs_read st4 h2 st0.params.blockSize).1 = some B := by
  have hdrop : ("/f".drop 1) = "f" := by decide
  cases fuel with
  | zero => simp [tfs_open] at hopen
  | succ fuel =>
  unfold tfs_open at hopen
  rw [if_neg (by decide)] at hopen
  cases hr : inode_get st0 ROOT_DIR_INUM with
  | none => rw [hr] at hopen; simp at hopen
  | some rootIno =>
  have hlk : tfs_lookup st0 "/f" = none := by
    unfold tfs_lookup find_in_dir
    rw [if_pos (by decide)]
    rw [show ("/f".drop 1) = "f" from by decide]
    exact hnof
  simp only [hr, hlk, hdrop] at hopen
  cases hc : inode_create st0 InodeType.TFile with
  | none => simp only [hc] at hopen; simp at hopen
  | some pr =>
  obtain ⟨inum, stA⟩ := pr
  simp only [hc] at hopen
  cases hadd : add_dir_entry stA "f" inum with
  | none => simp only [hadd] at hopen; simp at hopen
  | some stB =>
  simp only [hadd] at hopen
  rw [if_pos trivial] at hopen
  unfold add_to_open_file_table at hopen
  cases hf : firstFree stB.openFiles with
  | none => rw [hf] at hopen; simp at hopen
  | some hh =>
  rw [hf] at hopen
  simp only [Prod.mk.injEq, Option.some.injEq] at hopen
  obtain ⟨rfl, rfl⟩ := hopen
  obtain ⟨hff, hstA⟩ := inode_create_nondir st0 _ (by decide) _ _ hc
  obtain ⟨k, hk, hfind, hstB⟩ := add_dir_entry_some _ _ _ _ hadd
  subst hstA
  subst hstB
  have hinumlt : inum < st0.inodes.length := firstFree_lt _ _ hff
  have hhlt : hh < st0.openFiles.length := firstFree_lt _ _ hf
  have hklt : k < st0.dirEntries.length := firstFree_lt _ _ hk
  have hlen : B.length < W := lt_of_le_of_lt hB hW
  have hroot0 : st0.inodes.get? 0 = some (some rootIno) :=
    (inode_get_eq_some st0 _ _).mp hr
  have hi0 : inum ≠ 0 := by
    intro h0
    have h1 := firstFree_get _ _ hff
    rw [h0, hroot0] at h1
    simp at h1
  have hfe : get_open_file_entry
      { st0 with
        inodes := st0.inodes.set inum (some ⟨InodeType.TFile, 0, 0, 1, ""⟩),
        dirEntries := st0.dirEntries.set k (some ⟨"f", inum⟩),
        openFiles := st0.openFiles.set hh (some ⟨inum, 0⟩) } hh
      = some ⟨inum, 0⟩ := by
    show ((st0.openFiles.set hh (some ⟨inum, 0⟩)).get? hh).join = _
    rw [get?_set_self _ _ _ hhlt]
    rfl
  have hie : inode_get
      { st0 with
        inodes := st0.inodes.set inum (some ⟨InodeType.TFile, 0, 0, 1, ""⟩),
        dirEntries := st0.dirEntries.set k (some ⟨"f", inum⟩),
        openFiles := st0.openFiles.set hh (some ⟨inum, 0⟩) } inum
      = some ⟨InodeType.TFile, 0, 0, 1, ""⟩ := by
    show ((st0.inodes.set inum
      (some ⟨InodeType.TFile, 0, 0, 1, ""⟩)).get? inum).join = _
    rw [get?_set_self _ _ _ hinumlt]
    rfl
  dsimp only at hk hfind hf hwrite
  unfold tfs_write at hwrite
  simp only [hfe, hie] at hwrite
  set stOpen : FsState :=
    { st0 with
      inodes := st0.inodes.set inum (some ⟨InodeType.TFile, 0, 0, 1, ""⟩),
      dirEntries := st0.dirEntries.set k (some ⟨"f", inum⟩),
      openFiles := st0.openFiles.set hh (some ⟨inum, 0⟩) } with hstOpen
  have hns : state_block_size stOpen = st0.params.blockSize := rfl
  rw [hns] at hwrite
  simp only [Nat.add_zero, Nat.zero_add, if_true, List.take_zero,
    List.nil_append, List.take_length] at hwrite
  simp only [Nat.mod_eq_of_lt hlen] at hwrite
  simp only [if_neg (Nat.not_lt.mpr hB)] at hwrite
  simp only [Nat.mod_eq_of_lt hlen, List.take_length] at hwrite
  by_cases hB0 : B.length = 0
  · rw [if_neg (by omega)] at hwrite
    simp only [Prod.mk.injEq, Option.some.injEq] at hwrite
    obtain ⟨rfl, rfl⟩ := hwrite
    refine close_then stOpen hh ⟨inum, 0⟩
      (fun s => ∃ h2 st4, tfs_open 1 s "/f" ⟨false, false, false⟩
        = (some h2, st4) ∧
        (tfs_read st4 h2 st0.params.blockSize).1 = some B) hfe ?_
    show ∃ h2 st4, tfs_open 1
      { st0 with
        inodes := st0.inodes.set inum (some ⟨InodeType.TFile, 0, 0, 1, ""⟩),
        dirEntries := st0.dirEntries.set k (some ⟨"f", inum⟩),
        openFiles := (st0.openFiles.set hh (some ⟨inum, 0⟩)).set hh none }
      "/f" ⟨false, false, false⟩ = (some h2, st4) ∧
      (tfs_read st4 h2 st0.params.blockSize).1 = some B
    simp only [List.set_set]
    exact c1_tail st0 rootIno inum k hh ⟨InodeType.TFile, 0, 0, 1, ""⟩
      st0.blocks B hroot0 hnof (firstFree_get _ _ hk) hinumlt hi0 hhlt rfl
      hB0.symm hB hW (fun hpos => absurd hB0 (by omega))
  · rw [if_pos (by omega)] at hwrite
    cases halloc : data_block_alloc stOpen with
    | none => simp only [halloc] at hwrite; exact absurd hwrite (by simp)
    | some pr =>
    obtain ⟨b, stC⟩ := pr
    simp only [halloc] at hwrite
    obtain ⟨hfb, hstC⟩ := data_block_alloc_some stOpen b stC halloc
    have hblt : b < st0.blocks.length := firstFree_lt _ _ hfb
    have hbg : data_block_get stC b
        = some (List.replicate st0.params.blockSize 0) := by
      rw [hstC]
      show ((stOpen.blocks.set b
        (some (List.replicate st0.params.blockSize 0))).get? b).join = _
      rw [get?_set_self _ _ _ hblt]
      rfl
    simp only [hbg] at hwrite
    rw [if_pos (by omega : B.length > 0)] at hwrite
    simp only [Prod.mk.injEq, Option.some.injEq] at hwrite
    obtain ⟨rfl, rfl⟩ := hwrite
    subst hstC
    refine close_then _ hh ⟨inum, B.length⟩
      (fun s => ∃ h2 st4, tfs_open 1 s "/f" ⟨false, false, false⟩
        = (some h2, st4) ∧
        (tfs_read st4 h2 st0.params.blockSize).1 = some B) ?_ ?_
    · show (((st0.openFiles.set hh (some ⟨inum, 0⟩)).set hh
        (some ⟨inum, B.length⟩)).get? hh).join = some ⟨inum, B.length⟩
      have hhlt2 : hh < (st0.openFiles.set hh (some ⟨inum, 0⟩)).length := by
        rw [List.length_set]
        exact hhlt
      rw [get?_set_self _ _ _ hhlt2]
      rfl
    · show ∃ h2 st4, tfs_open 1
        { st0 with
          inodes := (st0.inodes.set inum
            (some ⟨InodeType.TFile, 0, 0, 1, ""⟩)).set inum
            (some ⟨InodeType.TFile, B.length, b, 1, ""⟩),
          blocks := (st0.blocks.set b
            (some (List.replicate st0.params.blockSize 0))).set b
            (some (B ++ List.drop B.length
              (List.replicate st0.params.blockSize 0))),
          dirEntries := st0.dirEntries.set k (some ⟨"f", inum⟩),
          openFiles := ((st0.openFiles.set hh (some ⟨inum, 0⟩)).set hh
            (some ⟨inum, B.length⟩)).set hh none }
        "/f" ⟨false, false, false⟩ = (some h2, st4) ∧
        (tfs_read st4 h2 st0.params.blockSize).1 = some B
      simp only [List.set_set]
      refine c1_tail st0 rootIno inum k hh
        ⟨InodeType.TFile, B.length, b, 1, ""⟩
        (st0.blocks.set b (some (B ++ List.drop B.length
          (List.replicate st0.params.blockSize 0)))) B
        hroot0 hnof (firstFree_get _ _ hk) hinumlt hi0 hhlt rfl rfl hB hW
        (fun _ => ⟨B ++ List.drop B.length
          (List.replicate st0.params.blockSize 0), ?_, ?_⟩)
      · show (st0.blocks.set b _).get? b = _
        rw [get?_set_self _ _ _ hblt]
      · show (B ++ _).take B.length = B
        exact List.take_left B _

end TFS

namespace TFS

/-- Witness for C1: the hypotheses of `c1_roundtrip_amended` hold in the
fresh state `st8` for `B = [5,6,7]` — and the bytes read back are exactly
`[5,6,7]`. -/
theorem c1_witness :
    (tfs_close c1st2 0).1 = some () ∧
    ∃ h2 st4, tfs_open 1 (tfs_close c1st2 0).2 "/f" ⟨false, false, false⟩
        = (some h2, st4) ∧
      (tfs_read st4 h2 st8.params.blockSize).1 = some [5, 6, 7] :=
  c1_roundtrip_amended st8 [5, 6, 7] 1 0 3 c1st1 c1st2 (by decide) (by decide)
    (by decide) (by decide) (by decide)

end TFS
